import Mathlib

/-!
# sclevine/packs, `cf/cmd/builder/main.go`

A shallow embedding of the staging pipeline of the Cloud Foundry builder
(`stage` and the functions it calls) and theorems about it.

* Go functions that return an `error` become computations in the monad `M`,
  which threads the state of the outside world and a log of every external
  operation performed (`Event`), and which can end in a returned error or in
  a run-time panic.
* The operating system, the external programs and the Go libraries whose
  result depends on the machine are the fields of the record `OS`; every
  function of the embedding takes that record as a parameter.
* JSON files are kept at the level of JSON values (`JVal`); numbers are exact
  decimals and the passage through Go's `float64` is computed exactly.
-/

set_option autoImplicit false

namespace Packs

/-! ## Errors (package `sys`) -/

/-- Modelled from the spec: the exit codes of package `sys`, which is not among
the sources; the spec asks for distinct codes for invalid arguments, an invalid
environment and a failed build. -/
inductive Code where
  | invalidArgs
  | invalidEnv
  | failedBuild
deriving DecidableEq, Repr

/-- Modelled from the spec: the error values built by `sys.FailErr`,
`sys.FailErrCode` and `sys.FailCode` (package `sys` is not among the sources).
An error records the constructor that built it, the action words, the code and
the wrapped cause; `ext` is an error that comes from outside the program (the
operating system, a library, an external process). -/
inductive Error where
  | ext (msg : String)
  | failErr (cause : Error) (action : List String)
  | failErrCode (cause : Error) (code : Code) (action : List String)
  | failCode (code : Code) (action : List String)
deriving DecidableEq, Repr

/-! ## JSON values -/

/-- A JSON number, the exact decimal `(-1)^neg * mant * 10^exp`. -/
structure Dec where
  neg : Bool
  mant : Nat
  exp : Int
deriving DecidableEq, Repr

/-- A finite `float64`, the exact binary number `(-1)^neg * mant * 2^exp` with
`mant < 2^53` and `-1074 ≤ exp ≤ 971`. -/
structure F64 where
  neg : Bool
  mant : Nat
  exp : Int
deriving DecidableEq, Repr

/-- A JSON value. An object keeps its members in document order and may repeat
a key. -/
inductive JVal where
  | null
  | bool (b : Bool)
  | num (d : Dec)
  | str (s : String)
  | arr (xs : List JVal)
  | obj (fs : List (String × JVal))

/-! ### `float64`: `strconv.ParseFloat` and the shortest formatting of `encoding/json` -/

def bitLenAux : Nat → Nat → Nat
  | 0, _ => 0
  | fuel + 1, n => if n = 0 then 0 else bitLenAux fuel (n / 2) + 1

/-- Number of binary digits of `n`. -/
def bitLen (n : Nat) : Nat := bitLenAux n n

/-- The integer nearest to `n / d`, a tie going to the even one. -/
def roundHalfEven (n d : Nat) : Nat :=
  let q := n / d
  let r := n % d
  if 2 * r < d then q
  else if d < 2 * r then q + 1
  else if q % 2 = 0 then q else q + 1

/-- The fraction `(n, d)` with `n / d = a / (b * 2 ^ e)`. -/
def scale2 (a b : Nat) (e : Int) : Nat × Nat :=
  if 0 ≤ e then (a, b * 2 ^ e.toNat) else (a * 2 ^ (-e).toNat, b)

/-- The fraction `(n, d)` with `n / d = a / (b * 10 ^ e)`. -/
def scale10 (a b : Nat) (e : Int) : Nat × Nat :=
  if 0 ≤ e then (a, b * 10 ^ e.toNat) else (a * 10 ^ (-e).toNat, b)

/-- The absolute value of a decimal as a fraction. -/
def Dec.frac (d : Dec) : Nat × Nat :=
  if 0 ≤ d.exp then (d.mant * 10 ^ d.exp.toNat, 1) else (d.mant, 10 ^ (-d.exp).toNat)

/-- The absolute value of a float as a fraction. -/
def F64.frac (f : F64) : Nat × Nat :=
  if 0 ≤ f.exp then (f.mant * 2 ^ f.exp.toNat, 1) else (f.mant, 2 ^ (-f.exp).toNat)

/-- Go `strconv.ParseFloat(s, 64)` on the decimal that `s` denotes: the nearest
`float64`, ties to even, subnormals included; `none` is the range error of a
value that rounds to infinity. -/
def parseFloat64 (d : Dec) : Option F64 :=
  let (a, b) := d.frac
  if a = 0 then some ⟨d.neg, 0, -1074⟩
  else
    let e0 : Int := (bitLen a : Int) - (bitLen b : Int) - 53
    let s0 := scale2 a b e0
    let e1 : Int := if s0.1 / s0.2 < 2 ^ 53 then e0 else e0 + 1
    let e : Int := if e1 < -1074 then -1074 else e1
    let s := scale2 a b e
    let m := roundHalfEven s.1 s.2
    let (m, e) := if m = 2 ^ 53 then (2 ^ 52, e + 1) else (m, e)
    if 971 < e then none else some ⟨d.neg, m, e⟩

def decLenAux : Nat → Nat → Nat
  | 0, _ => 0
  | fuel + 1, n => if n = 0 then 0 else decLenAux fuel (n / 10) + 1

/-- Least `j` from the start value on, searched as far as the fuel goes, with
`b ≤ a * 10 ^ j`. -/
def negExpAux (a b : Nat) : Nat → Nat → Nat
  | 0, j => j
  | fuel + 1, j => if b ≤ a * 10 ^ j then j else negExpAux a b fuel (j + 1)

/-- The exponent `p` with `10 ^ p ≤ a / b < 10 ^ (p + 1)`, for `0 < a / b` no
smaller than the least subnormal. -/
def exp10 (a b : Nat) : Int :=
  if b ≤ a then (decLenAux (a / b) (a / b) : Int) - 1 else - (negExpAux a b 400 0 : Int)

def stripZerosAux : Nat → Nat → Int → Nat × Int
  | 0, m, e => (m, e)
  | fuel + 1, m, e =>
    if m ≠ 0 ∧ m % 10 = 0 then stripZerosAux fuel (m / 10) (e + 1) else (m, e)

/-- The same decimal without trailing zeros in the mantissa. -/
def Dec.normalize (d : Dec) : Dec :=
  if d.mant = 0 then ⟨d.neg, 0, 0⟩
  else ⟨d.neg, (stripZerosAux d.mant d.mant d.exp).1, (stripZerosAux d.mant d.mant d.exp).2⟩

/-- The decimal of `n` significant digits nearest to `f` among those that
parse back to `f`, if there is one (`p` is the decimal exponent of `f`). -/
def shortestAt (f : F64) (p : Int) (n : Nat) : Option Dec :=
  let (a, b) := f.frac
  let s : Int := p - (n : Int) + 1
  let (x, y) := scale10 a b s
  let lo := x / y
  let r := x % y
  let dlo : Dec := ⟨f.neg, lo, s⟩
  let dhi : Dec := ⟨f.neg, lo + 1, s⟩
  let okdown : Bool := parseFloat64 dlo == some f
  let okup : Bool := decide (r ≠ 0) && parseFloat64 dhi == some f
  if okdown && okup then
    if 2 * r < y then some dlo
    else if y < 2 * r then some dhi
    else if lo % 2 = 0 then some dlo else some dhi
  else if okdown then some dlo
  else if okup then some dhi
  else none

def shortestAux (f : F64) (p : Int) : Nat → Nat → Option Dec
  | 0, _ => none
  | fuel + 1, n =>
    match shortestAt f p n with
    | some d => some d
    | none => shortestAux f p fuel (n + 1)

/-- The number `encoding/json` writes for a `float64`:
`strconv.AppendFloat(b, f, fmt, -1, 64)`, the decimal with the fewest digits
that parses back to `f` (seventeen always suffice). -/
def formatFloat64 (f : F64) : Dec :=
  if f.mant = 0 then ⟨f.neg, 0, 0⟩
  else
    match shortestAux f (exp10 f.frac.1 f.frac.2) 17 1 with
    | some d => d.normalize
    | none => ⟨f.neg, f.mant, f.exp⟩

/-- A JSON number read into an `interface{}` and written back. -/
def float64RoundTrip (d : Dec) : Option Dec := (parseFloat64 d).map formatFloat64

/-! ### Go maps with string keys -/

def ltChars : List Char → List Char → Bool
  | _, [] => false
  | [], _ :: _ => true
  | a :: as, b :: bs => a.toNat < b.toNat || (a.toNat == b.toNat && ltChars as bs)

/-- The order in which `encoding/json` writes the keys of a map. -/
def keyLt (a b : String) : Bool := ltChars a.data b.data

/-- Go `m[k] = v` on a map kept as the list of its entries in key order. -/
def mapSet {α : Type} (k : String) (v : α) : List (String × α) → List (String × α)
  | [] => [(k, v)]
  | (k', v') :: rest =>
    if keyLt k k' then (k, v) :: (k', v') :: rest
    else if k = k' then (k, v) :: rest
    else (k', v') :: mapSet k v rest

/-- Go `m[k]`, with `none` for an absent key. -/
def mapGet {α : Type} (k : String) : List (String × α) → Option α
  | [] => none
  | (k', v') :: rest => if k = k' then some v' else mapGet k rest

/-- The value a JSON object gives to a key: that of its last member with the
key. -/
def objGet (k : String) : List (String × JVal) → Option JVal
  | [] => none
  | (k', v') :: rest =>
    match objGet k rest with
    | some v => some v
    | none => if k = k' then some v' else none

/-! ### Decoding into `interface{}` and encoding again -/

mutual
/-- The JSON text that `Encode` writes for the Go value that `Decode` builds
from a JSON value in an `interface{}`: numbers pass through `float64`, an
object becomes a map, written in key order. `none`: a number is out of
range, for which `Decode` reports an error. -/
def reencode : JVal → Option JVal
  | .null => some .null
  | .bool b => some (.bool b)
  | .num d => (float64RoundTrip d).map .num
  | .str s => some (.str s)
  | .arr xs => (reencodeList xs).map .arr
  | .obj fs => (reencodeObj fs []).map .obj
def reencodeList : List JVal → Option (List JVal)
  | [] => some []
  | x :: xs =>
    match reencode x, reencodeList xs with
    | some y, some ys => some (y :: ys)
    | _, _ => none
/-- The members of an object are stored into the map one after the other. -/
def reencodeObj : List (String × JVal) → List (String × JVal) → Option (List (String × JVal))
  | [], acc => some acc
  | (k, v) :: fs, acc =>
    match reencode v with
    | some y => reencodeObj fs (mapSet k y acc)
    | none => none
end

/-! ### Decoding into the typed targets of the program -/

/-- Go `json.NewDecoder(f).Decode(&contents)` for `contents map[string]interface{}`
on a file whose text denotes the given JSON value. `ok none` is the nil map
that the literal `null` leaves in place without an error; every value that is
not an object, and every number out of range, is an error. -/
def decodeMap : JVal → Except Error (Option (List (String × JVal)))
  | .null => .ok none
  | .obj fs =>
    match reencodeObj fs [] with
    | some m => .ok (some m)
    | none => .error (.ext "json: cannot unmarshal number into Go value of type float64")
  | _ => .error (.ext "json: cannot unmarshal into Go value of type map[string]interface")

/-- The members of an object stored into a `map[string]string`: a string is
stored, `null` stores the empty string, every other value is an error. -/
def decodeStringMap : List (String × JVal) → List (String × String) →
    Option (List (String × String))
  | [], acc => some acc
  | (k, .str s) :: fs, acc => decodeStringMap fs (mapSet k s acc)
  | (k, .null) :: fs, acc => decodeStringMap fs (mapSet k "" acc)
  | _ :: _, _ => none

/-- The elements of an array stored into a `[]map[string]string`: an object
gives a map, `null` the nil map (which reads like the empty one), every other
value is an error. -/
def decodeStringMaps : List JVal → Option (List (List (String × String)))
  | [] => some []
  | .obj fs :: xs =>
    match decodeStringMap fs [], decodeStringMaps xs with
    | some m, some ms => some (m :: ms)
    | _, _ => none
  | .null :: xs => (decodeStringMaps xs).map ([] :: ·)
  | _ :: _ => none

/-- Go `json.NewDecoder(f).Decode(&list)` for `list []map[string]string`. -/
def decodeList : JVal → Except Error (List (List (String × String)))
  | .null => .ok []
  | .arr xs =>
    match decodeStringMaps xs with
    | some l => .ok l
    | none => .error (.ext "json: cannot unmarshal into Go value of type string")
  | _ => .error (.ext "json: cannot unmarshal into Go value of type []map[string]string")

/-! ## The outside world -/

/-- What a file holds, as far as a JSON decoder can tell: a text from which
no JSON value can be read (an empty file, for one) or a text that starts with
a JSON value. -/
inductive Content where
  | noJSON
  | json (v : JVal)

/-- The state of the machine: the files the program reads as JSON, and the
rest (directories, owners, the environment, whatever external programs see). -/
structure World (ρ : Type) where
  files : String → Option Content
  rest : ρ

/-- An entry of the log: a function of `main.go` was entered, or the function
`site` performed an operation outside the program, with or without success. -/
inductive Event where
  | call (fn : String) (args : List String)
  | op (site : String) (name : String) (args : List String) (ok : Bool)
deriving DecidableEq, Repr

structure St (ρ : Type) where
  world : World ρ
  trace : List Event

/-- How a Go function ends: it returns (a nil error), it returns an error, or
it panics. -/
inductive Res (α : Type) where
  | ok (a : α)
  | err (e : Error)
  | panic (msg : String)
deriving DecidableEq

/-- A computation on the world that keeps the log. -/
def M (ρ α : Type) : Type := St ρ → Res α × St ρ

/-- An external command as `exec.Command` and the fields set on it describe
it. -/
structure Cmd where
  path : String
  args : List String
  dir : String
  cred : Option (Nat × Nat)

/-- The machine and the libraries whose result depends on it. A field that
can change the world returns the new one. -/
structure OS (ρ : Type) where
  /-- Go `unicode.ToLower` -/
  toLowerRune : Char → Char
  /-- Go `filepath.Dir` -/
  dir : String → String
  /-- Go `filepath.Join` of two elements -/
  join : String → String → String
  /-- Go `filepath.Abs` -/
  abs : String → World ρ → Except Error String
  /-- Go `os.Stat`, of which only the error is used -/
  stat : String → World ρ → Except Error Unit
  /-- Go `os.IsNotExist` -/
  isNotExist : Error → Bool
  /-- Go `os.MkdirAll(dir, 0777)` -/
  mkdirAll : String → World ρ → Option Error × World ρ
  /-- Modelled from the spec: `sys.Run` of the package `sys`, which is not among
  the sources: an archive, ownership or version-control tool invoked as a
  subprocess, giving its output or an error. -/
  run : String → List String → World ρ → Except Error String × World ρ
  /-- Go `(*exec.Cmd).Run` -/
  exec : Cmd → World ρ → Option Error × World ρ
  /-- Go `os.Open` and `io.Copy` into `sha1.New()`, printed in hexadecimal -/
  sha1File : String → World ρ → Except Error String
  /-- Go `appfiles.ApplicationFiles.AppFilesInDir` -/
  appFilesInDir : String → World ρ → Except Error (List String)
  /-- Go `appfiles.ApplicationFiles.CopyFiles` -/
  copyFiles : List String → String → String → World ρ → Option Error × World ρ
  /-- Go `ioutil.TempDir("", "pack")` -/
  tempDir : World ρ → Except Error String × World ρ
  /-- Go `appfiles.ApplicationZipper.Unzip` -/
  unzipApp : String → String → World ρ → Option Error × World ρ
  /-- Go `os.RemoveAll` -/
  removeAll : String → World ρ → World ρ
  /-- Go `ioutil.ReadDir`, the names of the entries -/
  readDir : String → World ρ → Except Error (List String)
  /-- The failure, if any, of an operation (`open`, `read`, `seek`, `truncate`,
  `write`) on the file at a path. -/
  ioErr : String → String → World ρ → Option Error
  /-- Go `user.Lookup`, the fields `Uid` and `Gid` -/
  lookupUser : String → World ρ → Except Error (String × String)
  /-- Modelled from the spec: `cfapp.New()` followed by `app.Stage()` of the
  package `cf/app`, which is not among the sources: the app-environment
  provider, giving the mapping of environment variables to inject before the
  build step. -/
  appStage : World ρ → Except Error (List (String × String))
  /-- Go `os.Setenv` -/
  setenv : String → String → World ρ → Option Error × World ρ

/-- The package-level variables of `main.go`, and `os.Args[1:]`. -/
structure Config where
  appName : String
  appZip : String
  appDir : String
  buildDir : String
  cacheDir : String
  cachePath : String
  metadataPath : String
  dropletPath : String
  buildpacksDir : String
  buildpackOrder : List String
  skipDetect : Bool
  args : List String

section Monad
variable {ρ α β : Type}

def M.pure (a : α) : M ρ α := fun s => (.ok a, s)

def M.bind (x : M ρ α) (f : α → M ρ β) : M ρ β := fun s =>
  match x s with
  | (.ok a, s') => f a s'
  | (.err e, s') => (.err e, s')
  | (.panic m, s') => (.panic m, s')

instance : Monad (M ρ) where
  pure := M.pure
  bind := M.bind

/-- Go `return err` -/
def fail (e : Error) : M ρ α := fun s => (.err e, s)

/-- A run-time panic. -/
def goPanic (msg : String) : M ρ α := fun s => (.panic msg, s)

def emit (e : Event) : M ρ Unit := fun s => (.ok (), ⟨s.world, s.trace ++ [e]⟩)

/-- An operation that reads the world. -/
def query (site name : String) (args : List String) (f : World ρ → Except Error α) :
    M ρ (Except Error α) := fun s =>
  (.ok (f s.world), ⟨s.world, s.trace ++ [.op site name args (f s.world).isOk]⟩)

/-- An operation that can change the world and gives a value or an error. -/
def action (site name : String) (args : List String)
    (f : World ρ → Except Error α × World ρ) : M ρ (Except Error α) := fun s =>
  (.ok (f s.world).1, ⟨(f s.world).2, s.trace ++ [.op site name args (f s.world).1.isOk]⟩)

/-- An operation that can change the world and gives an error or nil. -/
def status (site name : String) (args : List String)
    (f : World ρ → Option Error × World ρ) : M ρ (Option Error) := fun s =>
  (.ok (f s.world).1, ⟨(f s.world).2, s.trace ++ [.op site name args (f s.world).1.isNone]⟩)

/-- Go `if err := x; err != nil { return wrap(err) }` -/
def orFail (x : M ρ α) (wrap : Error → Error) : M ρ α := fun s =>
  match x s with
  | (.err e, s') => (.err (wrap e), s')
  | r => r

/-- A call whose returned error is dropped. -/
def ignoreErr (x : M ρ Unit) : M ρ Unit := fun s =>
  match x s with
  | (.err _, s') => (.ok (), s')
  | r => r

/-- Go `defer cleanup` ahead of a body: the cleanup runs when the body is left,
however it is left. -/
def deferring (cleanup : World ρ → World ρ) (site name : String) (args : List String)
    (body : M ρ α) : M ρ α := fun s =>
  match body s with
  | (r, s') => (r, ⟨cleanup s'.world, s'.trace ++ [.op site name args true]⟩)

end Monad

/-! ## Library functions that do not depend on the machine -/

def extScan : List Char → List Char → List Char
  | [], _ => []
  | c :: rest, acc =>
    if c = '/' then [] else if c = '.' then '.' :: acc else extScan rest (c :: acc)

/-- Go `filepath.Ext`: the suffix that starts at the last dot of the last element
of the path, empty when there is no dot. The characters are scanned from the
end. -/
def filepathExt (path : String) : String := ⟨extScan path.data.reverse []⟩

/-- Go `strings.TrimSuffix` -/
def trimSuffix (s suffix : String) : String :=
  if suffix.data.isSuffixOf s.data then ⟨s.data.take (s.data.length - suffix.data.length)⟩
  else s

/-- Go `len(s)`, the number of bytes of the UTF-8 encoding. -/
def byteLen (s : String) : Nat := (s.data.map Char.utf8Size).sum

/-- Go `strconv.ParseUint(s, 10, 32)`: a non-empty string of decimal digits whose
value fits 32 bits. -/
def parseUint32 (s : String) : Option Nat :=
  if s.data ≠ [] ∧ s.data.all Char.isDigit then
    let n := s.data.foldl (fun acc c => acc * 10 + (c.toNat - 48)) 0
    if n < 2 ^ 32 then some n else none
  else none

/-- Modelled from the spec: the JSON encoding of `build.PackMetadata` of the
package `cf/build`, which is not among the sources:
`pack_metadata → {app: {name: string, sha: string}}`. -/
def packMetadata (name sha : String) : JVal :=
  .obj [("app", .obj [("name", .str name), ("sha", .str sha)])]

/-! ## Operations on the files read as JSON -/

section Program
variable {ρ : Type}

def World.setFile (w : World ρ) (path : String) (c : Content) : World ρ :=
  ⟨fun p => if p = path then some c else w.files p, w.rest⟩

/-- Go `os.OpenFile(path, os.O_CREATE|os.O_RDWR, 0666)`: a missing file is
created empty. -/
def openFile (os : OS ρ) (path : String) (w : World ρ) : Option Error × World ρ :=
  match os.ioErr "open" path w with
  | some e => (some e, w)
  | none =>
    match w.files path with
    | some _ => (none, w)
    | none => (none, w.setFile path .noJSON)

/-- Go `os.Open(path)` -/
def openRead (os : OS ρ) (path : String) (w : World ρ) : Except Error Unit :=
  match os.ioErr "open" path w with
  | some e => .error e
  | none =>
    match w.files path with
    | some _ => .ok ()
    | none => .error (.ext "open: no such file or directory")

/-- The JSON value a decoder reads from the file. -/
def readJSON (os : OS ρ) (path : String) (w : World ρ) : Except Error JVal :=
  match os.ioErr "read" path w with
  | some e => .error e
  | none =>
    match w.files path with
    | some (.json v) => .ok v
    | _ => .error (.ext "json: no value to decode")

/-- Go `f.Truncate(0)` -/
def truncateFile (os : OS ρ) (path : String) (w : World ρ) : Option Error × World ρ :=
  match os.ioErr "truncate" path w with
  | some e => (some e, w)
  | none => (none, w.setFile path .noJSON)

/-- Go `json.NewEncoder(f).Encode(v)` on the truncated file. -/
def writeJSON (os : OS ρ) (path : String) (v : JVal) (w : World ρ) : Option Error × World ρ :=
  match os.ioErr "write" path w with
  | some e => (some e, w)
  | none => (none, w.setFile path (.json v))

/-! ## The functions of `main.go` -/

def copyAppDir (os : OS ρ) (src dst : String) : M ρ Unit := do
  emit (.call "copyAppDir" [src, dst])
  match ← query "copyAppDir" "AppFilesInDir" [src] (os.appFilesInDir src) with
  | .error e => fail (.failErr e ["analyze app in", src])
  | .ok files =>
    match ← status "copyAppDir" "CopyFiles" [src, dst] (os.copyFiles files src dst) with
    | some e => fail (.failErr e ["copy app from", src, "to", dst])
    | none => pure ()

def copyAppZip (os : OS ρ) (src dst : String) : M ρ Unit := do
  emit (.call "copyAppZip" [src, dst])
  match ← action "copyAppZip" "ioutil.TempDir" ["", "pack"] os.tempDir with
  | .error e => fail (.failErr e ["create temp dir"])
  | .ok tmpDir =>
    deferring (os.removeAll tmpDir) "copyAppZip" "os.RemoveAll" [tmpDir] do
      match ← status "copyAppZip" "Unzip" [src, tmpDir] (os.unzipApp src tmpDir) with
      | some e => fail (.failErr e ["unzip app from", src, "to", tmpDir])
      | none => copyAppDir os tmpDir dst

def cmpDirLoop (os : OS ρ) : List String → String → M ρ Bool
  | [], _ => pure true
  | dir :: rest, last => do
    match ← query "cmpDir" "filepath.Abs" [dir] (os.abs dir) with
    | .error _ => pure false
    | .ok next =>
      if last = "" ∨ last = next then cmpDirLoop os rest next
      else pure false

def cmpDir (os : OS ρ) (dirs : List String) : M ρ Bool := do
  emit (.call "cmpDir" dirs)
  cmpDirLoop os dirs ""

def vcapDirLoop (os : OS ρ) : List String → M ρ Unit
  | [] => pure ()
  | dir :: rest => do
    match ← status "vcapDir" "os.MkdirAll" [dir] (os.mkdirAll dir) with
    | some e => fail (.failErr e ["make directory", dir])
    | none =>
      match ← action "vcapDir" "sys.Run" ["chown", "vcap:vcap", dir]
          (os.run "chown" ["vcap:vcap", dir]) with
      | .error e => fail (.failErr e ["chown", dir, "to vcap:vcap"])
      | .ok _ => vcapDirLoop os rest

def vcapDir (os : OS ρ) (dirs : List String) : M ρ Unit := do
  emit (.call "vcapDir" dirs)
  vcapDirLoop os dirs

def vcapDirAllLoop (os : OS ρ) : List String → M ρ Unit
  | [] => pure ()
  | dir :: rest => do
    match ← status "vcapDirAll" "os.MkdirAll" [dir] (os.mkdirAll dir) with
    | some e => fail (.failErr e ["make directory", dir])
    | none =>
      match ← action "vcapDirAll" "sys.Run" ["chown", "-R", "vcap:vcap", dir]
          (os.run "chown" ["-R", "vcap:vcap", dir]) with
      | .error e => fail (.failErr e ["recursively chown", dir, "to", "vcap:vcap"])
      | .ok _ => vcapDirAllLoop os rest

def vcapDirAll (os : OS ρ) (dirs : List String) : M ρ Unit := do
  emit (.call "vcapDirAll" dirs)
  vcapDirAllLoop os dirs

def commitSHA (os : OS ρ) (dir : String) : M ρ String := do
  emit (.call "commitSHA" [dir])
  match ← action "commitSHA" "sys.Run" ["git", "-C", dir, "rev-parse", "HEAD"]
      (os.run "git" ["-C", dir, "rev-parse", "HEAD"]) with
  | .error _ => pure ""
  | .ok v => pure v

def fileSHA (os : OS ρ) (path : String) : M ρ String := do
  emit (.call "fileSHA" [path])
  match ← query "fileSHA" "sha1" [path] (os.sha1File path) with
  | .error _ => pure ""
  | .ok v => pure v

/-- The deferred `f.Close()` is left out: nothing is observed of it. The value
is given by its JSON encoding. -/
def setKeyJSON (os : OS ρ) (path key : String) (value : JVal) : M ρ Unit := do
  emit (.call "setKeyJSON" [path, key])
  match ← status "setKeyJSON" "os.OpenFile" [path] (openFile os path) with
  | some e => fail (.failErr e ["open metadata"])
  | none =>
    match ← query "setKeyJSON" "Decode" [path]
        (fun w => (readJSON os path w).bind decodeMap) with
    | .error e => fail (.failErr e ["decode JSON at", path])
    | .ok none => goPanic "assignment to entry in nil map"
    | .ok (some contents) =>
      match ← status "setKeyJSON" "Seek" [path] (fun w => (os.ioErr "seek" path w, w)) with
      | some e => fail (.failErr e ["seek file at", path])
      | none =>
        match ← status "setKeyJSON" "Truncate" [path] (truncateFile os path) with
        | some e => fail (.failErr e ["truncate file at", path])
        | none =>
          match ← status "setKeyJSON" "Encode" [path]
              (writeJSON os path (.obj (mapSet key value contents))) with
          | some e => fail (.failErr e ["encode JSON to", path])
          | none => pure ()

def unzip (os : OS ρ) (zip dst : String) : M ρ Unit := do
  emit (.call "unzip" [zip, dst])
  match ← status "unzip" "os.MkdirAll" [dst] (os.mkdirAll dst) with
  | some e => fail (.failErr e ["ensure directory", dst])
  | none =>
    match ← action "unzip" "sys.Run" ["unzip", "-qq", zip, "-d", dst]
        (os.run "unzip" ["-qq", zip, "-d", dst]) with
    | .error e => fail (.failErr e ["unzip", zip, "to", dst])
    | .ok _ => pure ()

def untar (os : OS ρ) (tar dst : String) : M ρ Unit := do
  emit (.call "untar" [tar, dst])
  match ← status "untar" "os.MkdirAll" [dst] (os.mkdirAll dst) with
  | some e => fail (.failErr e ["ensure directory", dst])
  | none =>
    match ← action "untar" "sys.Run" ["tar", "-C", dst, "-xzf", tar]
        (os.run "tar" ["-C", dst, "-xzf", tar]) with
    | .error e => fail (.failErr e ["untar", tar, "to", dst])
    | .ok _ => pure ()

/-- Go `strings.ToLower` -/
def toLower (os : OS ρ) (s : String) : String := ⟨s.data.map os.toLowerRune⟩

def copyBuildpacksLoop (os : OS ρ) (src dst : String) : List String → M ρ Unit
  | [] => pure ()
  | filename :: rest =>
    if toLower os (filepathExt filename) ≠ ".zip" ∨ byteLen filename ≠ 36 then
      copyBuildpacksLoop os src dst rest
    else do
      ignoreErr (unzip os (os.join src filename)
        (os.join dst (toLower os (trimSuffix filename (filepathExt filename)))))
      copyBuildpacksLoop os src dst rest

def copyBuildpacks (os : OS ρ) (src dst : String) : M ρ Unit := do
  emit (.call "copyBuildpacks" [src, dst])
  match ← query "copyBuildpacks" "ioutil.ReadDir" [src] (os.readDir src) with
  | .error e =>
    if os.isNotExist e then pure ()
    else fail (.failErr e ["setup buildpacks", src])
  | .ok files => copyBuildpacksLoop os src dst files

def reduceJSON (os : OS ρ) (path key : String) : M ρ String := do
  emit (.call "reduceJSON" [path, key])
  match ← query "reduceJSON" "os.Open" [path] (openRead os path) with
  | .error e => fail (.failErr e ["open", path])
  | .ok _ =>
    match ← query "reduceJSON" "Decode" [path]
        (fun w => (readJSON os path w).bind decodeList) with
    | .error e => fail (.failErr e ["decode", path])
    | .ok list => pure (String.intercalate "," (list.map (fun m => (mapGet key m).getD "")))

def setenvLoop (os : OS ρ) : List (String × String) → M ρ Unit
  | [] => pure ()
  | (k, v) :: rest => do
    match ← status "setupEnv" "os.Setenv" [k, v] (os.setenv k v) with
    | some e => fail (.failErr e ["set app env"])
    | none => setenvLoop os rest

def setupEnv (os : OS ρ) : M ρ Unit := do
  emit (.call "setupEnv" [])
  match ← query "setupEnv" "cfapp.New" [] os.appStage with
  | .error e => fail (.failErr e ["build app env"])
  | .ok env => setenvLoop os env

def setupStdFds (os : OS ρ) : M ρ Unit := do
  emit (.call "setupStdFds" [])
  match ← status "setupStdFds" "cmd.Run" ["chown", "vcap", "/dev/stdout", "/dev/stderr"]
      (os.exec ⟨"chown", ["vcap", "/dev/stdout", "/dev/stderr"], "", none⟩) with
  | some e => fail (.failErr e ["fix permissions of stdout and stderr"])
  | none => pure ()

def userLookup (os : OS ρ) (u : String) : M ρ (Nat × Nat) := do
  emit (.call "userLookup" [u])
  match ← query "userLookup" "user.Lookup" [u] (os.lookupUser u) with
  | .error e => fail (.failErr e ["find user", u])
  | .ok usr =>
    match parseUint32 usr.1 with
    | none => fail (.failErr (.ext "strconv.ParseUint") ["parse uid", usr.1])
    | some uid =>
      match parseUint32 usr.2 with
      | none => fail (.failErr (.ext "strconv.ParseUint") ["parse gid", usr.2])
      | some gid => pure (uid, gid)

/-- Lines 79 to 93 of `stage`: the application is brought into the build
directory; the result is `appVersion`. -/
def resolveApp (os : OS ρ) (cfg : Config) : M ρ String :=
  if cfg.appZip ≠ "" then do
    let appVersion ← fileSHA os cfg.appZip
    orFail (copyAppZip os cfg.appZip cfg.buildDir) (.failErr · ["extract app zip"])
    pure appVersion
  else if cfg.appDir ≠ "" then do
    let appVersion ← commitSHA os cfg.appDir
    if !(← cmpDir os [cfg.appDir, cfg.buildDir]) then
      orFail (copyAppDir os cfg.appDir cfg.buildDir) (.failErr · ["copy app directory"])
    pure appVersion
  else fail (.failCode .invalidArgs ["parse app directory"])

/-- Lines 101 to 106 of `stage`: the directories are made and given to
`vcap`. -/
def prepareDirs (os : OS ρ) (cfg : Config) : M ρ Unit := do
  orFail (vcapDir os [os.dir cfg.dropletPath, os.dir cfg.metadataPath, os.dir cfg.cachePath])
    (.failErr · ["prepare destination directories"])
  orFail (vcapDirAll os [cfg.buildDir, cfg.cacheDir, "/home/vcap/tmp"])
    (.failErr · ["prepare source directories"])

/-- Lines 95 to 99 of `stage`: the cache archive, if there is one, is
extracted. -/
def extractCache (os : OS ρ) (cfg : Config) : M ρ Unit := do
  match ← query "stage" "os.Stat" [cfg.cachePath] (os.stat cfg.cachePath) with
  | .ok _ => orFail (untar os cfg.cachePath cfg.cacheDir) (.failErr · ["extract cache"])
  | .error _ => pure ()

/-- Lines 107 to 128 of `stage`: the buildpacks are copied, their order is
read if it has to be detected, and the identity of `vcap`, the standard
streams and the environment are set up; the result is `extraArgs`, `uid` and
`gid`. -/
def finishPrepare (os : OS ρ) (cfg : Config) : M ρ (List String × Nat × Nat) := do
  orFail (copyBuildpacks os "/buildpacks" cfg.buildpacksDir) (.failErr · ["add buildpacks"])
  let extraArgs ←
    if String.join cfg.buildpackOrder = "" ∧ cfg.skipDetect = false then do
      let names ← orFail (reduceJSON os (os.join cfg.buildpacksDir "config.json") "name")
        (.failErr · ["determine buildpack names"])
      pure ["-buildpackOrder", names]
    else pure []
  let ids ← orFail (userLookup os "vcap") (.failErr · ["determine vcap UID/GID"])
  orFail (setupStdFds os) (.failErr · ["adjust fd ownership"])
  orFail (setupEnv os) (.failErrCode · .invalidEnv ["setup env"])
  pure (extraArgs, ids.1, ids.2)

/-- Lines 68 to 128 of `stage`, all that comes before the builder is started;
the result is `extraArgs`, `appVersion`, `uid` and `gid`. -/
def stagePrepare (os : OS ρ) (cfg : Config) : M ρ (List String × String × Nat × Nat) := do
  let appVersion ← resolveApp os cfg
  extractCache os cfg
  prepareDirs os cfg
  let r ← finishPrepare os cfg
  pure (r.1, appVersion, r.2.1, r.2.2)

/-- The command of line 130 with the fields of lines 131 to 137. -/
def builderCmd (cfg : Config) (extraArgs : List String) (uid gid : Nat) : Cmd :=
  ⟨"/lifecycle/builder", cfg.args ++ extraArgs, cfg.buildDir, some (uid, gid)⟩

def stage (os : OS ρ) (cfg : Config) : M ρ Unit := do
  let r ← stagePrepare os cfg
  match ← status "stage" "cmd.Run" ("/lifecycle/builder" :: (cfg.args ++ r.1))
      (os.exec (builderCmd cfg r.1 r.2.2.1 r.2.2.2)) with
  | some e => fail (.failErrCode e .failedBuild ["build"])
  | none =>
    orFail (setKeyJSON os cfg.metadataPath "pack_metadata" (packMetadata cfg.appName r.2.1))
      (.failErr · ["write metadata"])

end Program

/-! ## A machine for the examples -/

/-- The directory part of a path, for the examples: the text before the last
slash. -/
def testDir (p : String) : String :=
  ⟨((p.data.reverse.dropWhile (fun c => c != '/')).drop 1).reverse⟩

/-- A machine on which no operation fails: ASCII letter case, paths joined
with a slash, no cache archive, a buildpack registry that holds the given
names, and a builder that ends with the given error, if any. -/
def testOS (registry : List String) (builderErr : Option Error) : OS Unit where
  toLowerRune := Char.toLower
  dir := testDir
  join := fun a b => a ++ "/" ++ b
  abs := fun p _ => .ok (if p.data.head? = some '/' then p else "/home/vcap/app/" ++ p)
  stat := fun _ _ => .error (.ext "stat: no such file or directory")
  isNotExist := fun e => decide (e = .ext "open: no such file or directory")
  mkdirAll := fun _ w => (none, w)
  run := fun _ _ w => (.ok "", w)
  exec := fun c w => if c.path = "/lifecycle/builder" then (builderErr, w) else (none, w)
  sha1File := fun _ _ => .ok "da39a3ee5e6b4b0d3255bfef95601890afd80709"
  appFilesInDir := fun _ _ => .ok []
  copyFiles := fun _ _ _ w => (none, w)
  tempDir := fun w => (.ok "/tmp/pack042", w)
  unzipApp := fun _ _ w => (none, w)
  removeAll := fun _ w => w
  readDir := fun _ _ => .ok registry
  ioErr := fun _ _ _ => none
  lookupUser := fun _ _ => .ok ("2000", "2000")
  appStage := fun _ => .ok [("CF_STACK", "cflinuxfs2")]
  setenv := fun _ _ w => (none, w)

/-- A world that holds the given files. -/
def testWorld (files : List (String × Content)) : World Unit := ⟨fun p => mapGet p files, ()⟩

/-- A configuration for the examples. -/
def testConfig (appZip appDir : String) : Config where
  appName := "myapp"
  appZip := appZip
  appDir := appDir
  buildDir := "/tmp/app"
  cacheDir := "/tmp/cache"
  cachePath := "/out/cache.tgz"
  metadataPath := "/out/result.json"
  dropletPath := "/out/droplet.tgz"
  buildpacksDir := "/tmp/buildpacks"
  buildpackOrder := []
  skipDetect := true
  args := ["-skipDetect"]

/-- The metadata file holds `{"foo": 1}`. -/
def fooWorld : World Unit :=
  testWorld [("/out/result.json", .json (.obj [("foo", .num ⟨false, 1, 0⟩)]))]

/-- The metadata file holds `{"build_id": 9007199254740993}`. -/
def bigWorld : World Unit :=
  testWorld [("/out/result.json", .json (.obj [("build_id", .num ⟨false, 9007199254740993, 0⟩)]))]

/-- The metadata file holds `null`. -/
def nullWorld : World Unit := testWorld [("/out/result.json", .json .null)]

/-- The buildpack configuration holds
`[{"name": "ruby_buildpack", "position": 1}]`. -/
def positionWorld : World Unit :=
  testWorld [("/tmp/buildpacks/config.json",
    .json (.arr [.obj [("name", .str "ruby_buildpack"), ("position", .num ⟨false, 1, 0⟩)]]))]

/-- The buildpack configuration holds
`[{"name": "ruby_buildpack", "key": "0f1e"}, {"name": "go_buildpack"}]`. -/
def namesWorld : World Unit :=
  testWorld [("/tmp/buildpacks/config.json",
    .json (.arr ([[("name", .str "ruby_buildpack"), ("key", .str "0f1e")],
      [("name", .str "go_buildpack")]].map .obj)))]

/-! ## Vocabulary of the statements -/

/-- The event is the entry into the named function. -/
def Event.isCall (fn : String) : Event → Bool
  | .call f _ => f == fn
  | .op _ _ _ _ => false

/-- The function that an event belongs to: the function entered, or the
function that performed the operation. -/
def Event.src : Event → String
  | .call f _ => f
  | .op site _ _ _ => site

/-- The event is an operation that failed. -/
def Event.failed : Event → Bool
  | .call _ _ => false
  | .op _ _ _ ok => !ok

/-- The test of lines 276 and 277 of `copyBuildpacks` on a file name: the
extension is `.zip` in lower case and the name is 36 bytes long. -/
def accepted {ρ : Type} (os : OS ρ) (filename : String) : Bool :=
  decide (toLower os (filepathExt filename) = ".zip") && decide (byteLen filename = 36)

/-- The call of `unzip` that `copyBuildpacks` makes for an entry. -/
def unzipCall {ρ : Type} (os : OS ρ) (src dst filename : String) : Event :=
  .call "unzip" [os.join src filename,
    os.join dst (toLower os (trimSuffix filename (filepathExt filename)))]

def lowerHexChars : List Char := "0123456789abcdef".data

def hexChars : List Char := "0123456789abcdefABCDEF".data

/-- The extension `.zip` in every letter case. -/
def zipExts : List (List Char) :=
  [".zip", ".ziP", ".zIp", ".zIP", ".Zip", ".ZiP", ".ZIp", ".ZIP"].map String.data

/-- The pattern `^[0-9a-f]{32}\.zip$` with the extension in any letter case:
32 lower-case hexadecimal characters followed by `.zip`. -/
def matchesChecksumZip (name : String) : Bool :=
  name.data.length == 36 && (name.data.take 32).all (fun c => lowerHexChars.contains c)
    && zipExts.contains (name.data.drop 32)

/-- 32 hexadecimal characters followed by `.zip`, both in any letter case. -/
def isChecksumZipAnyCase (name : String) : Bool :=
  name.data.length == 36 && (name.data.take 32).all (fun c => hexChars.contains c)
    && zipExts.contains (name.data.drop 32)

/-- Go `unicode.ToLower` on the ASCII characters. -/
def LowersASCII {ρ : Type} (os : OS ρ) : Prop :=
  ∀ c : Char, c.toNat < 128 → os.toLowerRune c = c.toLower

/-- Every event that the computation adds to the log satisfies `P`. -/
def Emits {ρ α : Type} (P : Event → Prop) (m : M ρ α) : Prop :=
  ∀ s, ∃ t, (m s).2.trace = s.trace ++ t ∧ ∀ e ∈ t, P e

/-- Every error that the computation returns satisfies `P`. -/
def Errs {ρ α : Type} (P : Error → Prop) (m : M ρ α) : Prop :=
  ∀ s e, (m s).1 = .err e → P e

/-- The entries are in strictly increasing key order. -/
def KeySorted {α : Type} (m : List (String × α)) : Prop :=
  m.Pairwise (fun x y => keyLt x.1 y.1 = true)

/-- The operations of a successful loop of `vcapDir` over the directories. -/
def vcapDirSteps : List String → List Event
  | [] => []
  | d :: rest =>
    .op "vcapDir" "os.MkdirAll" [d] true
      :: .op "vcapDir" "sys.Run" ["chown", "vcap:vcap", d] true :: vcapDirSteps rest

/-- The operations of a successful loop of `vcapDirAll` over the directories. -/
def vcapDirAllSteps : List String → List Event
  | [] => []
  | d :: rest =>
    .op "vcapDirAll" "os.MkdirAll" [d] true
      :: .op "vcapDirAll" "sys.Run" ["chown", "-R", "vcap:vcap", d] true :: vcapDirAllSteps rest

/-- The log of lines 101 to 106 of `stage` when every step succeeds: the
parent directories of the droplet, the metadata and the cache archive are made
and given to `vcap:vcap`, then the build directory, the cache directory and
`/home/vcap/tmp` are made and given to `vcap:vcap` recursively. -/
def provisionEvents {ρ : Type} (os : OS ρ) (cfg : Config) : List Event :=
  .call "vcapDir" [os.dir cfg.dropletPath, os.dir cfg.metadataPath, os.dir cfg.cachePath]
    :: vcapDirSteps [os.dir cfg.dropletPath, os.dir cfg.metadataPath, os.dir cfg.cachePath]
  ++ .call "vcapDirAll" [cfg.buildDir, cfg.cacheDir, "/home/vcap/tmp"]
    :: vcapDirAllSteps [cfg.buildDir, cfg.cacheDir, "/home/vcap/tmp"]

/-- The event is the run of `/lifecycle/builder` by `stage`. -/
def Event.isBuilder : Event → Bool
  | .op site name args _ =>
    site == "stage" && name == "cmd.Run" && args.head? == some "/lifecycle/builder"
  | .call _ _ => false

/-- The event belongs to `vcapDir` or to `vcapDirAll`. -/
def Event.isProvision (e : Event) : Bool := e.src == "vcapDir" || e.src == "vcapDirAll"

/-- The computation either returns with the given log and no failed operation,
or returns an error right after the first operation that fails; it does not
panic. -/
def StopsAtFailure {ρ α : Type} (m : M ρ α) (okLog : List Event) : Prop :=
  ∀ s, ((∃ a, (m s).1 = .ok a) ∧ (m s).2.trace = s.trace ++ okLog) ∨
    ∃ err t f, (m s).1 = .err err ∧ (m s).2.trace = s.trace ++ t ++ [f] ∧
      (∀ e ∈ t, e.failed = false) ∧ f.failed = true

/-- The event belongs neither to `vcapDir`, `vcapDirAll` or `setKeyJSON` nor
to an operation of `stage` itself other than `os.Stat`. -/
def Event.quiet (e : Event) : Bool :=
  match e with
  | .call fn _ => fn != "vcapDir" && fn != "vcapDirAll" && fn != "setKeyJSON"
  | .op site name _ _ =>
    site != "vcapDir" && site != "vcapDirAll" && site != "setKeyJSON"
      && (site != "stage" || name == "os.Stat")

/-- The example machine, except that `os.MkdirAll` fails on one directory. -/
def testOSNoMkdir (dir : String) : OS Unit :=
  { testOS [] none with
    mkdirAll := fun d w => if d = dir then (some (.ext "mkdir: permission denied"), w) else (none, w) }

/-- The metadata file holds `{}`. -/
def emptyWorld : World Unit := testWorld [("/out/result.json", .json (.obj []))]


/-! ## Maps in key order -/

theorem ltChars_irrefl (a : List Char) : ltChars a a = false := by
  induction a with
  | nil => rfl
  | cons c cs ih => simp [ltChars, ih]

theorem ltChars_trans : ∀ a b c : List Char,
    ltChars a b = true → ltChars b c = true → ltChars a c = true
  | _, [], _, h, _ => by cases ‹List Char› <;> simp [ltChars] at h
  | _, _ :: _, [], _, h => by simp [ltChars] at h
  | [], _ :: _, _ :: _, _, _ => by simp [ltChars]
  | x :: xs, y :: ys, z :: zs, h1, h2 => by
    simp only [ltChars, Bool.or_eq_true, Bool.and_eq_true, decide_eq_true_eq, beq_iff_eq] at *
    rcases h1 with h1 | ⟨e1, h1⟩ <;> rcases h2 with h2 | ⟨e2, h2⟩
    · left; omega
    · left; omega
    · left; omega
    · right; exact ⟨by omega, ltChars_trans xs ys zs h1 h2⟩

theorem ltChars_total : ∀ a b : List Char, ltChars a b = false → a ≠ b → ltChars b a = true
  | [], [], _, h => absurd rfl h
  | [], _ :: _, h, _ => by simp [ltChars] at h
  | _ :: _, [], _, _ => by simp [ltChars]
  | x :: xs, y :: ys, h, hne => by
    simp only [ltChars, Bool.or_eq_false_iff, Bool.and_eq_false_iff, decide_eq_false_iff_not,
      beq_eq_false_iff_ne, Bool.or_eq_true, Bool.and_eq_true, decide_eq_true_eq, beq_iff_eq] at *
    obtain ⟨h1, h2⟩ := h
    by_cases hxy : x.toNat = y.toNat
    · right
      refine ⟨hxy.symm, ?_⟩
      have hx : x = y := Char.ext (UInt32.ext (by simpa [Char.toNat, UInt32.toNat] using hxy))
      rcases h2 with h2 | h2
      · exact absurd hxy h2
      · exact ltChars_total xs ys h2 (fun h => hne (by rw [hx, h]))
    · left; omega

theorem keyLt_irrefl (a : String) : keyLt a a = false := ltChars_irrefl _

theorem keyLt_trans {a b c : String} (h1 : keyLt a b = true) (h2 : keyLt b c = true) :
    keyLt a c = true := ltChars_trans _ _ _ h1 h2

theorem keyLt_total {a b : String} (h : keyLt a b = false) (hne : a ≠ b) : keyLt b a = true :=
  ltChars_total _ _ h (fun e => hne (String.ext e))

theorem mem_mapSet {α : Type} (k : String) (v : α) :
    ∀ (m : List (String × α)) (x : String × α), x ∈ mapSet k v m → x = (k, v) ∨ x ∈ m
  | [], x, h => by simp [mapSet] at h; exact Or.inl h
  | (k', v') :: rest, x, h => by
    unfold mapSet at h
    split at h
    · simp at h; rcases h with h | h | h <;> simp [h]
    · split at h
      · simp at h; rcases h with h | h <;> simp [h]
      · simp at h
        rcases h with h | h
        · simp [h]
        · rcases mem_mapSet k v rest x h with h | h <;> simp [h]

theorem mapSet_sorted {α : Type} (k : String) (v : α) :
    ∀ m : List (String × α), KeySorted m → KeySorted (mapSet k v m)
  | [], _ => by simp [mapSet, KeySorted]
  | (k', v') :: rest, h => by
    unfold KeySorted at h ⊢
    rw [List.pairwise_cons] at h
    unfold mapSet
    split
    · rename_i hlt
      refine List.pairwise_cons.2 ⟨?_, List.pairwise_cons.2 h⟩
      intro x hx
      rcases List.mem_cons.1 hx with hx | hx
      · simpa [hx] using hlt
      · exact keyLt_trans hlt (h.1 x hx)
    · split
      · rename_i _ heq
        refine List.pairwise_cons.2 ⟨?_, h.2⟩
        intro x hx
        simpa [heq] using h.1 x hx
      · rename_i hlt hne
        refine List.pairwise_cons.2 ⟨?_, mapSet_sorted k v rest h.2⟩
        intro x hx
        rcases mem_mapSet k v rest x hx with hx | hx
        · rw [hx]
          exact keyLt_total (by simpa using hlt) hne
        · exact h.1 x hx

theorem mapGet_mapSet {α : Type} (k : String) (v : α) (k' : String) :
    ∀ m : List (String × α), mapGet k' (mapSet k v m) = if k' = k then some v else mapGet k' m
  | [] => by simp [mapSet, mapGet]
  | (k0, v0) :: rest => by
    unfold mapSet
    split
    · simp [mapGet]
    · split
      · rename_i _ heq
        subst heq
        by_cases h : k' = k <;> simp [mapGet, h]
      · rename_i _ hne
        by_cases h : k' = k
        · subst h
          simp [mapGet, hne, mapGet_mapSet k' v k' rest]
        · by_cases h0 : k' = k0
          · subst h0
            simp [mapGet, h]
          · simp [mapGet, h, h0, mapGet_mapSet k v k' rest]

theorem mapGet_none_of_forall_ne {α : Type} (k : String) :
    ∀ m : List (String × α), (∀ x ∈ m, x.1 ≠ k) → mapGet k m = none
  | [], _ => rfl
  | (k0, v0) :: rest, h => by
    have h0 : k ≠ k0 := fun e => h (k0, v0) (by simp) e.symm
    simp [mapGet, h0, mapGet_none_of_forall_ne k rest (fun x hx => h x (by simp [hx]))]

theorem objGet_eq_mapGet {α : Type} (k : String) :
    ∀ m : List (String × JVal), KeySorted m → objGet k m = mapGet k m
  | [], _ => rfl
  | (k0, v0) :: rest, h => by
    unfold KeySorted at h
    rw [List.pairwise_cons] at h
    have ih := objGet_eq_mapGet (α := α) k rest h.2
    by_cases hk : k = k0
    · subst hk
      have : mapGet k rest = none := by
        apply mapGet_none_of_forall_ne
        intro x hx e
        have := h.1 x hx
        rw [e] at this
        simp [keyLt_irrefl] at this
      simp [objGet, mapGet, ih, this]
    · simp only [objGet, mapGet, ih, hk, if_false]
      cases mapGet k rest <;> rfl

theorem reencodeObj_spec : ∀ (fs acc m : List (String × JVal)),
    reencodeObj fs acc = some m → KeySorted acc →
    KeySorted m ∧ ∀ k,
      (objGet k fs = none → mapGet k m = mapGet k acc) ∧
      (∀ x, objGet k fs = some x → ∃ y, reencode x = some y ∧ mapGet k m = some y)
  | [], acc, m, h, hs => by
    simp [reencodeObj] at h
    subst h
    exact ⟨hs, fun k => ⟨fun _ => rfl, fun x hx => by simp [objGet] at hx⟩⟩
  | (k0, v0) :: fs, acc, m, h, hs => by
    rw [reencodeObj] at h
    cases hv : reencode v0 with
    | none => simp [hv] at h
    | some y0 =>
      simp only [hv] at h
      obtain ⟨hm, hget⟩ := reencodeObj_spec fs (mapSet k0 y0 acc) m h (mapSet_sorted _ _ _ hs)
      refine ⟨hm, fun k => ?_⟩
      obtain ⟨hn, hsome⟩ := hget k
      cases ho : objGet k fs with
      | some x =>
        constructor
        · intro h'; simp [objGet, ho] at h'
        · intro x' hx'
          simp [objGet, ho] at hx'
          subst hx'
          exact hsome x ho
      | none =>
        have h1 := hn ho
        rw [mapGet_mapSet] at h1
        constructor
        · intro h'
          simp only [objGet, ho] at h'
          by_cases hk : k = k0
          · simp [hk] at h'
          · simpa [hk] using h1
        · intro x' hx'
          simp only [objGet, ho] at hx'
          by_cases hk : k = k0
          · simp [hk] at hx'
            subst hx'
            exact ⟨y0, hv, by simpa [hk] using h1⟩
          · simp [hk] at hx'


section Monad
variable {ρ : Type}

theorem bind_def {α β : Type} (x : M ρ α) (f : α → M ρ β) (s : St ρ) :
    (x >>= f) s = match x s with
      | (.ok a, s') => f a s'
      | (.err e, s') => (.err e, s')
      | (.panic m, s') => (.panic m, s') := rfl

theorem pure_def {α : Type} (a : α) (s : St ρ) : (pure a : M ρ α) s = (.ok a, s) := rfl

end Monad

section SetKey
variable {ρ : Type}

theorem float64RoundTrip_one : float64RoundTrip ⟨false, 1, 0⟩ = some ⟨false, 1, 0⟩ := by
  have h1 : parseFloat64 ⟨false, 1, 0⟩ = some ⟨false, 4503599627370496, -52⟩ := by decide
  have h2 : formatFloat64 ⟨false, 4503599627370496, -52⟩ = ⟨false, 1, 0⟩ := by decide
  simp [float64RoundTrip, h1, h2]

theorem float64RoundTrip_2p53_succ :
    float64RoundTrip ⟨false, 9007199254740993, 0⟩ = some ⟨false, 9007199254740992, 0⟩ := by
  have h1 : parseFloat64 ⟨false, 9007199254740993, 0⟩ = some ⟨false, 4503599627370496, 1⟩ := by
    decide
  have h2 : formatFloat64 ⟨false, 4503599627370496, 1⟩ = ⟨false, 9007199254740992, 0⟩ := by
    decide
  simp [float64RoundTrip, h1, h2]

/-- C1, as amended. A successful `setKeyJSON(path, k, v)` on a file whose
content is a JSON object `m` leaves the file holding a JSON object, written in
key order without a repeated key, that maps `k` to `v`, has apart from `k`
exactly the keys of `m`, and maps each of them to the value that `m` gives it
after that value has passed through Go's generic representation: numbers are
rounded to `float64`, nested objects are written in key order. -/
theorem setKeyJSON_keeps_other_keys (os : OS ρ) (path key : String) (value : JVal)
    (m : List (String × JVal)) (w : World ρ)
    (hfile : w.files path = some (.json (.obj m)))
    (hok : (setKeyJSON os path key value ⟨w, []⟩).1 = .ok ()) :
    ∃ fs, (setKeyJSON os path key value ⟨w, []⟩).2.world.files path = some (.json (.obj fs)) ∧
      KeySorted fs ∧ objGet key fs = some value ∧
      ∀ k, k ≠ key →
        (objGet k m = none → objGet k fs = none) ∧
        (∀ x, objGet k m = some x → ∃ y, reencode x = some y ∧ objGet k fs = some y) := by
  cases ho : os.ioErr "open" path w with
  | some e => simp [setKeyJSON, bind_def, emit, status, openFile, ho, fail] at hok
  | none =>
  cases hr : os.ioErr "read" path w with
  | some e =>
    simp [setKeyJSON, bind_def, emit, status, query, openFile, readJSON, ho, hr, hfile, fail,
      Except.bind] at hok
  | none =>
  cases hd : reencodeObj m [] with
  | none =>
    simp [setKeyJSON, bind_def, emit, status, query, openFile, readJSON, decodeMap, ho, hr,
      hfile, hd, fail, Except.bind] at hok
  | some c =>
  cases hs : os.ioErr "seek" path w with
  | some e =>
    simp [setKeyJSON, bind_def, emit, status, query, openFile, readJSON, decodeMap, ho, hr,
      hfile, hd, hs, fail, Except.bind] at hok
  | none =>
  cases ht : os.ioErr "truncate" path w with
  | some e =>
    simp [setKeyJSON, bind_def, emit, status, query, openFile, readJSON, decodeMap, ho, hr,
      hfile, hd, hs, ht, truncateFile, fail, Except.bind] at hok
  | none =>
  cases hw : os.ioErr "write" path (w.setFile path .noJSON) with
  | some e =>
    simp [setKeyJSON, bind_def, emit, status, query, openFile, readJSON, decodeMap, ho, hr,
      hfile, hd, hs, ht, hw, truncateFile, writeJSON, fail, Except.bind] at hok
  | none =>
  obtain ⟨hsorted, hget⟩ := reencodeObj_spec m [] c hd (by simp [KeySorted])
  have hfs : KeySorted (mapSet key value c) := mapSet_sorted _ _ _ hsorted
  refine ⟨mapSet key value c, ?_, hfs, ?_, ?_⟩
  · simp [setKeyJSON, bind_def, emit, status, query, openFile, readJSON, decodeMap, ho, hr,
      hfile, hd, hs, ht, hw, truncateFile, writeJSON, pure_def, Except.bind]
    simp [World.setFile]
  · rw [objGet_eq_mapGet (α := JVal) _ _ hfs, mapGet_mapSet]; simp
  · intro k hk
    rw [objGet_eq_mapGet (α := JVal) _ _ hfs, mapGet_mapSet]
    simp only [hk, if_false]
    obtain ⟨h1, h2⟩ := hget k
    exact ⟨fun h => by simpa [mapGet] using h1 h, h2⟩

end SetKey

section SetKeyExamples

theorem setKeyJSON_foo_ok :
    (setKeyJSON (testOS [] none) "/out/result.json" "pack_metadata"
      (packMetadata "myapp" "abc123") ⟨fooWorld, []⟩).1 = .ok () := by
  simp [setKeyJSON, bind_def, pure_def, emit, status, query, openFile, readJSON, decodeMap,
    truncateFile, writeJSON, Except.bind, testOS, fooWorld, testWorld, mapGet, reencodeObj,
    reencode, float64RoundTrip_one]

/-- Witness of C1: from `{"foo": 1}` with key `pack_metadata` and the metadata
of app `myapp` at sha `abc123`, the file holds both `"foo": 1` and
`"pack_metadata": {"app": {"name": "myapp", "sha": "abc123"}}`. -/
theorem setKeyJSON_keeps_other_keys_witness :
    (setKeyJSON (testOS [] none) "/out/result.json" "pack_metadata"
        (packMetadata "myapp" "abc123") ⟨fooWorld, []⟩).2.world.files "/out/result.json"
      = some (.json (.obj [("foo", .num ⟨false, 1, 0⟩),
          ("pack_metadata", .obj [("app", .obj [("name", .str "myapp"), ("sha", .str "abc123")])])]))
    ∧ ∃ fs, (setKeyJSON (testOS [] none) "/out/result.json" "pack_metadata"
        (packMetadata "myapp" "abc123") ⟨fooWorld, []⟩).2.world.files "/out/result.json"
          = some (.json (.obj fs)) ∧
      KeySorted fs ∧ objGet "pack_metadata" fs = some (packMetadata "myapp" "abc123") ∧
      ∀ k, k ≠ "pack_metadata" →
        (objGet k [("foo", JVal.num ⟨false, 1, 0⟩)] = none → objGet k fs = none) ∧
        (∀ x, objGet k [("foo", JVal.num ⟨false, 1, 0⟩)] = some x →
          ∃ y, reencode x = some y ∧ objGet k fs = some y) :=
  ⟨by
    simp [setKeyJSON, bind_def, pure_def, emit, status, query, openFile, readJSON, decodeMap,
      truncateFile, writeJSON, Except.bind, testOS, fooWorld, testWorld, mapGet, reencodeObj,
      reencode, float64RoundTrip_one, World.setFile, mapSet, keyLt, ltChars, packMetadata],
   setKeyJSON_keeps_other_keys (testOS [] none) "/out/result.json" "pack_metadata"
    (packMetadata "myapp" "abc123") [("foo", .num ⟨false, 1, 0⟩)] fooWorld rfl setKeyJSON_foo_ok⟩

/-- Counterexample to C1 as stated: the file holds
`{"build_id": 9007199254740993}`; `setKeyJSON` with another key succeeds, and
afterwards the file maps `build_id` to 9007199254740992, not to the value it
had. -/
theorem setKeyJSON_changes_large_number :
    bigWorld.files "/out/result.json"
      = some (.json (.obj [("build_id", .num ⟨false, 9007199254740993, 0⟩)])) ∧
    (setKeyJSON (testOS [] none) "/out/result.json" "pack_metadata"
      (packMetadata "myapp" "abc123") ⟨bigWorld, []⟩).1 = .ok () ∧
    (setKeyJSON (testOS [] none) "/out/result.json" "pack_metadata"
        (packMetadata "myapp" "abc123") ⟨bigWorld, []⟩).2.world.files "/out/result.json"
      = some (.json (.obj [("build_id", .num ⟨false, 9007199254740992, 0⟩),
          ("pack_metadata", packMetadata "myapp" "abc123")])) ∧
    objGet "build_id" [("build_id", JVal.num ⟨false, 9007199254740992, 0⟩),
          ("pack_metadata", packMetadata "myapp" "abc123")]
      ≠ objGet "build_id" [("build_id", JVal.num ⟨false, 9007199254740993, 0⟩)] := by
  refine ⟨rfl, ?_, ?_, ?_⟩
  · simp [setKeyJSON, bind_def, pure_def, emit, status, query, openFile, readJSON, decodeMap,
      truncateFile, writeJSON, Except.bind, testOS, bigWorld, testWorld, mapGet, reencodeObj,
      reencode, float64RoundTrip_2p53_succ]
  · simp [setKeyJSON, bind_def, pure_def, emit, status, query, openFile, readJSON, decodeMap,
      truncateFile, writeJSON, Except.bind, testOS, bigWorld, testWorld, mapGet, reencodeObj,
      reencode, float64RoundTrip_2p53_succ, World.setFile, mapSet, keyLt, ltChars]
  · simp [objGet]

/-- C10, the code at the failing input. When the metadata file holds the JSON
literal `null` and can be opened and read, `Decode` leaves the map nil without
an error and the assignment `contents[key] = value` panics. -/
theorem setKeyJSON_null_panics {ρ : Type} (os : OS ρ) (path key : String) (value : JVal)
    (s : St ρ) (ho : os.ioErr "open" path s.world = none)
    (hr : os.ioErr "read" path s.world = none)
    (hf : s.world.files path = some (.json .null)) :
    (setKeyJSON os path key value s).1 = .panic "assignment to entry in nil map" := by
  simp [setKeyJSON, bind_def, emit, status, query, openFile, ho, hr, hf, readJSON, decodeMap,
    goPanic, Except.bind]

/-- Witness of C10: the metadata file of the example machine holds `null`. -/
theorem setKeyJSON_null_panics_witness :
    nullWorld.files "/out/result.json" = some (.json .null) ∧
    (setKeyJSON (testOS [] none) "/out/result.json" "pack_metadata"
      (packMetadata "myapp" "abc123") ⟨nullWorld, []⟩).1
        = .panic "assignment to entry in nil map" :=
  ⟨rfl, setKeyJSON_null_panics (testOS [] none) "/out/result.json" "pack_metadata"
    (packMetadata "myapp" "abc123") ⟨nullWorld, []⟩ rfl rfl rfl⟩

end SetKeyExamples

section ReduceJSON
variable {ρ : Type}

theorem mapGet_of_objGet_none : ∀ (fs : List (String × JVal)) (acc m : List (String × String)),
    decodeStringMap fs acc = some m → ∀ k, objGet k fs = none → mapGet k m = mapGet k acc
  | [], acc, m, h, k, _ => by
    simp [decodeStringMap] at h
    rw [h]
  | (k0, v0) :: fs, acc, m, h, k, hk => by
    simp only [objGet] at hk
    cases ho : objGet k fs with
    | some x => simp [ho] at hk
    | none =>
      rw [ho] at hk
      have hk0 : k ≠ k0 := fun e => by simp [e] at hk
      cases v0 with
      | str s =>
        simp only [decodeStringMap] at h
        rw [mapGet_of_objGet_none fs _ m h k ho, mapGet_mapSet]
        simp [hk0]
      | null =>
        simp only [decodeStringMap] at h
        rw [mapGet_of_objGet_none fs _ m h k ho, mapGet_mapSet]
        simp [hk0]
      | bool b => simp [decodeStringMap] at h
      | num d => simp [decodeStringMap] at h
      | arr xs => simp [decodeStringMap] at h
      | obj o => simp [decodeStringMap] at h

theorem decodeStringMap_spec : ∀ (fs : List (String × JVal)) (acc : List (String × String)),
    (∀ f ∈ fs, f.2 = .null ∨ ∃ s, f.2 = .str s) →
    ∃ m, decodeStringMap fs acc = some m ∧
      ∀ k n, objGet k fs = some (.str n) → mapGet k m = some n
  | [], acc, _ => ⟨acc, rfl, fun k n h => by simp [objGet] at h⟩
  | (k0, v0) :: fs, acc, h => by
    have hrest : ∀ f ∈ fs, f.2 = .null ∨ ∃ s, f.2 = .str s := fun f hf => h f (by simp [hf])
    have key : ∀ (s0 : String) (acc' : List (String × String)),
        acc' = mapSet k0 s0 acc → (∀ n, v0 = .str n → n = s0) →
        ∃ m, decodeStringMap fs acc' = some m ∧
          ∀ k n, objGet k ((k0, v0) :: fs) = some (.str n) → mapGet k m = some n := by
      intro s0 acc' hacc hv
      obtain ⟨m, hm, hget⟩ := decodeStringMap_spec fs acc' hrest
      refine ⟨m, hm, fun k n hk => ?_⟩
      simp only [objGet] at hk
      cases ho : objGet k fs with
      | some x =>
        rw [ho] at hk
        simp at hk
        subst hk
        exact hget k n ho
      | none =>
        rw [ho] at hk
        by_cases hk0 : k = k0
        · simp [hk0] at hk
          have hn := hv n hk
          have := mapGet_of_objGet_none fs acc' m hm k ho
          rw [this, hacc, mapGet_mapSet]
          simp [hk0, hn]
        · simp [hk0] at hk
    rcases h (k0, v0) (by simp) with hnull | ⟨s, hs⟩
    · simp only at hnull
      subst hnull
      simpa [decodeStringMap] using key "" _ rfl (fun n hn => by cases hn)
    · simp only at hs
      subst hs
      simpa [decodeStringMap] using key s _ rfl (fun n hn => by cases hn; rfl)


theorem decodeStringMaps_spec : ∀ (objs : List (List (String × JVal))) (names : List String),
    (∀ o ∈ objs, ∀ f ∈ o, f.2 = .null ∨ ∃ s, f.2 = .str s) →
    List.Forall₂ (fun o n => objGet "name" o = some (.str n)) objs names →
    ∃ l, decodeStringMaps (objs.map .obj) = some l ∧
      l.map (fun m => (mapGet "name" m).getD "") = names
  | [], _, _, h => by
    cases h
    exact ⟨[], rfl, rfl⟩
  | o :: objs, _, hstr, h => by
    cases h with
    | cons hn hrest =>
      rename_i n names
      obtain ⟨m, hm, hget⟩ := decodeStringMap_spec o [] (hstr o (by simp))
      obtain ⟨l, hl, hnames⟩ :=
        decodeStringMaps_spec objs names (fun o' ho' => hstr o' (by simp [ho'])) hrest
      refine ⟨m :: l, ?_, ?_⟩
      · simp [decodeStringMaps, hm, hl]
      · simp [hnames, hget "name" n hn]

theorem intercalate_go_length (sep : String) : ∀ (l : List String) (acc : String),
    (String.intercalate.go acc sep l).length
      = acc.length + (l.map String.length).sum + sep.length * l.length
  | [], acc => by simp [String.intercalate.go]
  | a :: l, acc => by
    simp only [String.intercalate.go, intercalate_go_length sep l, String.length_append,
      List.map_cons, List.sum_cons, List.length_cons]
    ring

/-- C5, as amended. When the buildpack configuration can be opened and read
and holds a JSON array of objects whose fields all hold a string or `null`,
each object with a `name` field that holds a string, `reduceJSON(path, "name")`
succeeds and returns the names joined by single commas in document order: the
empty string for the empty array, and otherwise the names separated by one
comma less than there are names. -/
theorem reduceJSON_joins_names (os : OS ρ) (path : String) (w : World ρ)
    (objs : List (List (String × JVal))) (names : List String)
    (hopen : os.ioErr "open" path w = none) (hread : os.ioErr "read" path w = none)
    (hfile : w.files path = some (.json (.arr (objs.map .obj))))
    (hstr : ∀ o ∈ objs, ∀ f ∈ o, f.2 = .null ∨ ∃ s, f.2 = .str s)
    (hnames : List.Forall₂ (fun o n => objGet "name" o = some (.str n)) objs names) :
    (reduceJSON os path "name" ⟨w, []⟩).1 = .ok (String.intercalate "," names) ∧
    (names = [] → String.intercalate "," names = "") ∧
    (String.intercalate "," names).length
      = (names.map String.length).sum + (names.length - 1) := by
  obtain ⟨l, hl, hmap⟩ := decodeStringMaps_spec objs names hstr hnames
  refine ⟨?_, ?_, ?_⟩
  · simp [reduceJSON, bind_def, pure_def, emit, query, openRead, readJSON, decodeList, hopen,
      hread, hfile, hl, hmap, Except.bind]
  · intro h; subst h; rfl
  · cases names with
    | nil => rfl
    | cons a as =>
      simp only [String.intercalate, intercalate_go_length, List.map_cons, List.sum_cons,
        List.length_cons]
      have : ",".length = 1 := rfl
      rw [this]
      omega

/-- Witness of C5: the configuration
`[{"name": "ruby_buildpack", "key": "0f1e"}, {"name": "go_buildpack"}]` gives
`ruby_buildpack,go_buildpack`. -/
theorem reduceJSON_joins_names_witness :
    (reduceJSON (testOS [] none) "/tmp/buildpacks/config.json" "name" ⟨namesWorld, []⟩).1
      = .ok "ruby_buildpack,go_buildpack" :=
  (reduceJSON_joins_names (testOS [] none) "/tmp/buildpacks/config.json" namesWorld
    [[("name", .str "ruby_buildpack"), ("key", .str "0f1e")], [("name", .str "go_buildpack")]]
    ["ruby_buildpack", "go_buildpack"] rfl rfl rfl
    (by
      intro o ho f hf
      simp only [List.mem_cons, List.mem_singleton, List.not_mem_nil, or_false] at ho
      rcases ho with rfl | rfl <;>
        simp only [List.mem_cons, List.mem_singleton, List.not_mem_nil, or_false] at hf
      · rcases hf with rfl | rfl <;> exact Or.inr ⟨_, rfl⟩
      · subst hf; exact Or.inr ⟨_, rfl⟩)
    (by simp [objGet])).1

/-- Counterexample to C5 as stated: the configuration
`[{"name": "ruby_buildpack", "position": 1}]` is an array of objects, each with
a `name` string field, and `reduceJSON` returns an error: the number cannot be
decoded into the string values of a `map[string]string`. -/
theorem reduceJSON_fails_on_number_field :
    positionWorld.files "/tmp/buildpacks/config.json"
      = some (.json (.arr [.obj [("name", .str "ruby_buildpack"),
          ("position", .num ⟨false, 1, 0⟩)]])) ∧
    objGet "name" [("name", JVal.str "ruby_buildpack"), ("position", .num ⟨false, 1, 0⟩)]
      = some (.str "ruby_buildpack") ∧
    (reduceJSON (testOS [] none) "/tmp/buildpacks/config.json" "name" ⟨positionWorld, []⟩).1
      = .err (.failErr (.ext "json: cannot unmarshal into Go value of type string")
          ["decode", "/tmp/buildpacks/config.json"]) := by
  refine ⟨rfl, by simp [objGet], ?_⟩
  simp [reduceJSON, bind_def, emit, query, openRead, readJSON, decodeList, decodeStringMaps,
    decodeStringMap, mapSet, testOS, positionWorld, testWorld, mapGet, Except.bind, fail]

end ReduceJSON

section Buildpacks
variable {ρ : Type}

theorem unzip_ignored (os : OS ρ) (zip dst : String) (s : St ρ) :
    ∃ t, (ignoreErr (unzip os zip dst) s).2.trace = s.trace ++ .call "unzip" [zip, dst] :: t ∧
      (∀ e ∈ t, e.isCall "unzip" = false) ∧ (ignoreErr (unzip os zip dst) s).1 = .ok () := by
  cases hm : (os.mkdirAll dst s.world).1 with
  | some e =>
    refine ⟨[.op "unzip" "os.MkdirAll" [dst] false], ?_, ?_, ?_⟩ <;>
      simp [ignoreErr, unzip, bind_def, emit, status, fail, hm, Event.isCall]
  | none =>
    cases hr : (os.run "unzip" ["-qq", zip, "-d", dst] (os.mkdirAll dst s.world).2).1 with
    | error e =>
      refine ⟨[.op "unzip" "os.MkdirAll" [dst] true,
        .op "unzip" "sys.Run" ["unzip", "-qq", zip, "-d", dst] false], ?_, ?_, ?_⟩ <;>
        simp [ignoreErr, unzip, bind_def, emit, status, action, fail, hm, hr, Event.isCall,
          Except.isOk, Except.toBool]
    | ok v =>
      refine ⟨[.op "unzip" "os.MkdirAll" [dst] true,
        .op "unzip" "sys.Run" ["unzip", "-qq", zip, "-d", dst] true], ?_, ?_, ?_⟩ <;>
        simp [ignoreErr, unzip, bind_def, pure_def, emit, status, action, fail, hm, hr,
          Event.isCall, Except.isOk, Except.toBool]

theorem copyBuildpacksLoop_spec (os : OS ρ) (src dst : String) :
    ∀ (files : List String) (s : St ρ),
      (copyBuildpacksLoop os src dst files s).1 = .ok () ∧
      (copyBuildpacksLoop os src dst files s).2.trace.filter (Event.isCall "unzip")
        = s.trace.filter (Event.isCall "unzip")
          ++ (files.filter (accepted os)).map (unzipCall os src dst)
  | [], s => by simp [copyBuildpacksLoop, pure_def]
  | f :: files, s => by
    by_cases hacc : accepted os f = true
    · have hcond : ¬ (toLower os (filepathExt f) ≠ ".zip" ∨ byteLen f ≠ 36) := by
        simp [accepted] at hacc
        simp [hacc]
      obtain ⟨t, ht, hno, hok⟩ := unzip_ignored os (os.join src f)
        (os.join dst (toLower os (trimSuffix f (filepathExt f)))) s
      generalize hpair : ignoreErr (unzip os (os.join src f)
        (os.join dst (toLower os (trimSuffix f (filepathExt f))))) s = p at ht hok
      obtain ⟨r, s'⟩ := p
      simp only at ht hok
      subst hok
      have hstep : copyBuildpacksLoop os src dst (f :: files) s
          = copyBuildpacksLoop os src dst files s' := by
        rw [copyBuildpacksLoop, if_neg hcond, bind_def, hpair]
      rw [hstep]
      obtain ⟨h1, h2⟩ := copyBuildpacksLoop_spec os src dst files s'
      refine ⟨h1, ?_⟩
      rw [h2, ht]
      have hfilter : t.filter (Event.isCall "unzip") = [] := by
        simpa [List.filter_eq_nil_iff] using hno
      simp [List.filter_cons, Event.isCall, hfilter, hacc, unzipCall]
    · have hcond : toLower os (filepathExt f) ≠ ".zip" ∨ byteLen f ≠ 36 := by
        simp [accepted] at hacc
        by_cases h : toLower os (filepathExt f) = ".zip"
        · exact Or.inr (hacc h)
        · exact Or.inl h
      rw [copyBuildpacksLoop, if_pos hcond]
      obtain ⟨h1, h2⟩ := copyBuildpacksLoop_spec os src dst files s
      refine ⟨h1, ?_⟩
      rw [h2]
      simp [List.filter_cons, hacc]

end Buildpacks

section Checksum
variable {ρ : Type}

theorem hexChars_facts : ∀ c ∈ hexChars,
    c ≠ '/' ∧ c ≠ '.' ∧ c.utf8Size = 1 ∧ c.toNat < 128 := by decide

theorem sum_utf8Size_hex : ∀ h : List Char, (∀ c ∈ h, c ∈ hexChars) →
    (h.map Char.utf8Size).sum = h.length
  | [], _ => rfl
  | c :: h, hh => by
    have := (hexChars_facts c (hh c (by simp))).2.2.1
    simp [this, sum_utf8Size_hex h (fun c hc => hh c (by simp [hc]))]
    omega

theorem map_lower_hex (os : OS ρ) (hl : LowersASCII os) : ∀ h : List Char,
    (∀ c ∈ h, c ∈ hexChars) → h.map os.toLowerRune = h.map Char.toLower
  | [], _ => rfl
  | c :: h, hh => by
    have := hl c (hexChars_facts c (hh c (by simp))).2.2.2
    simp [this, map_lower_hex os hl h (fun c hc => hh c (by simp [hc]))]

theorem extScan_skip_hex : ∀ (h acc : List Char), (∀ c ∈ h, c ∈ hexChars) →
    ∀ rest, extScan (h ++ rest) acc = extScan rest (h.reverse ++ acc)
  | [], acc, _, rest => by simp
  | c :: h, acc, hh, rest => by
    obtain ⟨h1, h2, _⟩ := hexChars_facts c (hh c (by simp))
    simp [extScan, h1, h2, extScan_skip_hex h (c :: acc) (fun c hc => hh c (by simp [hc]))]

theorem zipExts_facts (os : OS ρ) (hl : LowersASCII os) : ∀ e ∈ zipExts,
    e.length = 4 ∧ (e.map Char.utf8Size).sum = 4 ∧ e.map os.toLowerRune = ".zip".data ∧
    ∀ rest, extScan (e.reverse ++ rest) [] = e := by
  intro e he
  have hz : os.toLowerRune 'z' = 'z' := hl 'z' (by decide)
  have hZ : os.toLowerRune 'Z' = 'z' := hl 'Z' (by decide)
  have hi : os.toLowerRune 'i' = 'i' := hl 'i' (by decide)
  have hI : os.toLowerRune 'I' = 'i' := hl 'I' (by decide)
  have hp : os.toLowerRune 'p' = 'p' := hl 'p' (by decide)
  have hP : os.toLowerRune 'P' = 'p' := hl 'P' (by decide)
  have hd : os.toLowerRune '.' = '.' := hl '.' (by decide)
  simp only [zipExts, List.map_cons, List.map_nil, List.mem_cons, List.mem_singleton,
    List.not_mem_nil, or_false] at he
  rcases he with rfl | rfl | rfl | rfl | rfl | rfl | rfl | rfl <;>
    simp [extScan, hz, hZ, hi, hI, hp, hP, hd] <;> decide


theorem checksumZip_accepted (os : OS ρ) (hl : LowersASCII os) (f : String)
    (hf : isChecksumZipAnyCase f = true) :
    toLower os (filepathExt f) = ".zip" ∧ byteLen f = 36 ∧
    toLower os (trimSuffix f (filepathExt f)) = ⟨(f.data.take 32).map Char.toLower⟩ := by
  simp only [isChecksumZipAnyCase, Bool.and_eq_true, beq_iff_eq, List.all_eq_true] at hf
  obtain ⟨⟨hlen, hhex⟩, hext⟩ := hf
  have hhex' : ∀ c ∈ f.data.take 32, c ∈ hexChars :=
    fun c hc => List.mem_of_elem_eq_true (hhex c hc)
  have hext' : f.data.drop 32 ∈ zipExts := List.mem_of_elem_eq_true hext
  obtain ⟨he4, hesum, helow, hescan⟩ := zipExts_facts os hl _ hext'
  have hsplit : f.data = f.data.take 32 ++ f.data.drop 32 := (List.take_append_drop 32 _).symm
  have hh32 : (f.data.take 32).length = 32 := by simp [hlen]
  have hrevhex : ∀ c ∈ (f.data.take 32).reverse, c ∈ hexChars := by
    intro c hc; exact hhex' c (List.mem_reverse.1 hc)
  have hExt : filepathExt f = ⟨f.data.drop 32⟩ := by
    unfold filepathExt
    rw [hsplit, List.reverse_append, hescan]
    simp
  have hbytes : byteLen f = 36 := by
    unfold byteLen
    rw [hsplit, List.map_append, List.sum_append, hesum, sum_utf8Size_hex _ hhex', hh32]
  have htrim : trimSuffix f (filepathExt f) = ⟨f.data.take 32⟩ := by
    unfold trimSuffix
    rw [hExt]
    have hsuf : (f.data.drop 32).isSuffixOf f.data = true := by
      rw [List.isSuffixOf_iff_suffix]
      exact List.drop_suffix 32 f.data
    simp only [hsuf, if_true, he4, hlen]
  refine ⟨?_, hbytes, ?_⟩
  · rw [hExt]
    simp only [toLower, helow]
  · rw [htrim]
    simp only [toLower, map_lower_hex os hl _ hhex']

end Checksum

section BuildpackClaims
variable {ρ : Type}

theorem copyBuildpacks_spec (os : OS ρ) (src dst : String) (files : List String) (w : World ρ)
    (hdir : os.readDir src w = .ok files) :
    (copyBuildpacks os src dst ⟨w, []⟩).1 = .ok () ∧
    (copyBuildpacks os src dst ⟨w, []⟩).2.trace.filter (Event.isCall "unzip")
      = (files.filter (accepted os)).map (unzipCall os src dst) := by
  have h := copyBuildpacksLoop_spec os src dst files
    ⟨w, [.call "copyBuildpacks" [src, dst], .op "copyBuildpacks" "ioutil.ReadDir" [src] true]⟩
  have hrun : copyBuildpacks os src dst ⟨w, []⟩ = copyBuildpacksLoop os src dst files
      ⟨w, [.call "copyBuildpacks" [src, dst],
        .op "copyBuildpacks" "ioutil.ReadDir" [src] true]⟩ := by
    simp [copyBuildpacks, bind_def, emit, query, hdir, Except.isOk, Except.toBool]
  rw [hrun]
  refine ⟨h.1, ?_⟩
  rw [h.2]
  simp [List.filter_cons, Event.isCall]

/-- C3, as amended. For every listing of the buildpack registry directory,
the calls of `unzip` that `copyBuildpacks` makes are, in the order of the
listing, those for the entries whose name is 36 bytes long and has an
extension equal to `.zip` once in lower case; the characters before the
extension are not examined, and every entry without this shape is ignored. -/
theorem copyBuildpacks_unpacks_by_extension_and_length (os : OS ρ) (src dst : String)
    (files : List String) (w : World ρ) (hdir : os.readDir src w = .ok files) :
    (copyBuildpacks os src dst ⟨w, []⟩).2.trace.filter (Event.isCall "unzip")
      = (files.filter (fun f => decide (toLower os (filepathExt f) = ".zip")
            && decide (byteLen f = 36))).map
          (fun f => .call "unzip" [os.join src f,
            os.join dst (toLower os (trimSuffix f (filepathExt f)))]) :=
  (copyBuildpacks_spec os src dst files w hdir).2

/-- Witness of C3: a registry with a name of 36 bytes that is not
hexadecimal and a name with another extension. -/
theorem copyBuildpacks_unpacks_by_extension_and_length_witness :
    (copyBuildpacks (testOS ["ruby_buildpack_cached_cflinuxfs2.zip", "notavalidname.txt"] none)
        "/buildpacks" "/tmp/buildpacks" ⟨testWorld [], []⟩).2.trace.filter (Event.isCall "unzip")
      = [.call "unzip" ["/buildpacks/ruby_buildpack_cached_cflinuxfs2.zip",
          "/tmp/buildpacks/ruby_buildpack_cached_cflinuxfs2"]] :=
  (copyBuildpacks_unpacks_by_extension_and_length
    (testOS ["ruby_buildpack_cached_cflinuxfs2.zip", "notavalidname.txt"] none)
    "/buildpacks" "/tmp/buildpacks" ["ruby_buildpack_cached_cflinuxfs2.zip", "notavalidname.txt"]
    (testWorld []) rfl).trans (by decide)

/-- Counterexample to C3 as stated: the registry entry
`ruby_buildpack_cached_cflinuxfs2.zip` does not match
`^[0-9a-f]{32}\.zip$`, and `copyBuildpacks` unpacks it. -/
theorem copyBuildpacks_unpacks_non_hex_name :
    matchesChecksumZip "ruby_buildpack_cached_cflinuxfs2.zip" = false ∧
    Event.call "unzip" ["/buildpacks/ruby_buildpack_cached_cflinuxfs2.zip",
        "/tmp/buildpacks/ruby_buildpack_cached_cflinuxfs2"]
      ∈ (copyBuildpacks (testOS ["ruby_buildpack_cached_cflinuxfs2.zip"] none)
          "/buildpacks" "/tmp/buildpacks" ⟨testWorld [], []⟩).2.trace := by
  constructor
  · decide
  · decide


/-- C4. For every listing of the buildpack registry, `copyBuildpacks` returns
no error; it calls `unzip` for each entry named by 32 hexadecimal characters
and `.zip`, both in any letter case, with the directory `<dst>/<the 32
characters in lower case>` as destination; and every call of `unzip` it makes
is for an entry with the extension `.zip` (in lower case) and a name of 36
bytes, so that an entry with another extension or another length is skipped.
The letter case of non-ASCII characters is left to the machine. -/
theorem copyBuildpacks_unzips_checksum_entries (os : OS ρ) (hl : LowersASCII os)
    (src dst : String) (files : List String) (w : World ρ)
    (hdir : os.readDir src w = .ok files) :
    (copyBuildpacks os src dst ⟨w, []⟩).1 = .ok () ∧
    (∀ f ∈ files, isChecksumZipAnyCase f = true →
      Event.call "unzip" [os.join src f, os.join dst ⟨(f.data.take 32).map Char.toLower⟩]
        ∈ (copyBuildpacks os src dst ⟨w, []⟩).2.trace) ∧
    (∀ zip d, Event.call "unzip" [zip, d] ∈ (copyBuildpacks os src dst ⟨w, []⟩).2.trace →
      ∃ f ∈ files, toLower os (filepathExt f) = ".zip" ∧ byteLen f = 36 ∧
        zip = os.join src f ∧ d = os.join dst (toLower os (trimSuffix f (filepathExt f)))) ∧
    ((copyBuildpacks os src dst ⟨w, []⟩).2.trace.filter (Event.isCall "unzip")).length
      = (files.filter (fun f => decide (toLower os (filepathExt f) = ".zip")
            && decide (byteLen f = 36))).length := by
  obtain ⟨hok, htrace⟩ := copyBuildpacks_spec os src dst files w hdir
  refine ⟨hok, ?_, ?_, ?_⟩
  · intro f hf hcs
    obtain ⟨h1, h2, h3⟩ := checksumZip_accepted os hl f hcs
    have hmem : unzipCall os src dst f
        ∈ (copyBuildpacks os src dst ⟨w, []⟩).2.trace.filter (Event.isCall "unzip") := by
      rw [htrace]
      exact List.mem_map_of_mem _ (List.mem_filter.2 ⟨hf, by simp [accepted, h1, h2]⟩)
    have := (List.mem_filter.1 hmem).1
    simpa [unzipCall, h3] using this
  · intro zip d hmem
    have hmem' : Event.call "unzip" [zip, d]
        ∈ (copyBuildpacks os src dst ⟨w, []⟩).2.trace.filter (Event.isCall "unzip") :=
      List.mem_filter.2 ⟨hmem, by simp [Event.isCall]⟩
    rw [htrace] at hmem'
    obtain ⟨f, hf, heq⟩ := List.mem_map.1 hmem'
    obtain ⟨hf1, hf2⟩ := List.mem_filter.1 hf
    simp only [accepted, Bool.and_eq_true, decide_eq_true_eq] at hf2
    simp only [unzipCall, Event.call.injEq, true_and, List.cons.injEq, and_true] at heq
    exact ⟨f, hf1, hf2.1, hf2.2, heq.1.symm, heq.2.symm⟩
  · rw [htrace, List.length_map]
    rfl

/-- Witness of C4: for a registry that holds a checksum name in lower case
with `.zip`, the entry `notavalidname.txt` and a checksum name in upper case
with `.ZIP`, exactly the two validly named entries are unpacked, each into its
lower-case checksum directory, and the third is ignored. -/
theorem copyBuildpacks_unzips_checksum_entries_witness :
    (copyBuildpacks (testOS ["0123456789abcdef0123456789abcdef.zip", "notavalidname.txt",
          "FEDCBA9876543210FEDCBA9876543210.ZIP"] none)
        "/buildpacks" "/tmp/buildpacks" ⟨testWorld [], []⟩).2.trace.filter (Event.isCall "unzip")
      = [.call "unzip" ["/buildpacks/0123456789abcdef0123456789abcdef.zip",
            "/tmp/buildpacks/0123456789abcdef0123456789abcdef"],
         .call "unzip" ["/buildpacks/FEDCBA9876543210FEDCBA9876543210.ZIP",
            "/tmp/buildpacks/fedcba9876543210fedcba9876543210"]] ∧
    (copyBuildpacks (testOS ["0123456789abcdef0123456789abcdef.zip", "notavalidname.txt",
          "FEDCBA9876543210FEDCBA9876543210.ZIP"] none)
        "/buildpacks" "/tmp/buildpacks" ⟨testWorld [], []⟩).1 = .ok () :=
  ⟨by decide,
   (copyBuildpacks_unzips_checksum_entries
    (testOS ["0123456789abcdef0123456789abcdef.zip", "notavalidname.txt",
      "FEDCBA9876543210FEDCBA9876543210.ZIP"] none) (fun _ _ => rfl)
    "/buildpacks" "/tmp/buildpacks" ["0123456789abcdef0123456789abcdef.zip", "notavalidname.txt",
      "FEDCBA9876543210FEDCBA9876543210.ZIP"] (testWorld []) rfl).1⟩

end BuildpackClaims

section Logic
variable {ρ α β : Type}

theorem Emits.mono {P Q : Event → Prop} {m : M ρ α} (h : Emits P m) (hPQ : ∀ e, P e → Q e) :
    Emits Q m := fun s =>
  let ⟨t, ht, hP⟩ := h s
  ⟨t, ht, fun e he => hPQ e (hP e he)⟩

theorem Emits.log_pure {P : Event → Prop} (a : α) : Emits P (pure a : M ρ α) :=
  fun s => ⟨[], by simp [pure_def], by simp⟩

theorem Emits.log_fail {P : Event → Prop} (e : Error) : Emits P (fail e : M ρ α) :=
  fun s => ⟨[], by simp [Packs.fail], by simp⟩

theorem Emits.log_goPanic {P : Event → Prop} (msg : String) : Emits P (goPanic msg : M ρ α) :=
  fun s => ⟨[], by simp [Packs.goPanic], by simp⟩

theorem Emits.log_emit {P : Event → Prop} {e : Event} (h : P e) : Emits P (emit e : M ρ Unit) :=
  fun s => ⟨[e], by simp [Packs.emit], by simpa using h⟩

theorem Emits.log_query {P : Event → Prop} {site name : String} {args : List String}
    (f : World ρ → Except Error α) (h : ∀ ok, P (.op site name args ok)) :
    Emits P (query site name args f) :=
  fun s => ⟨[.op site name args (f s.world).isOk], by simp [Packs.query], by simpa using h _⟩

theorem Emits.log_action {P : Event → Prop} {site name : String} {args : List String}
    (f : World ρ → Except Error α × World ρ) (h : ∀ ok, P (.op site name args ok)) :
    Emits P (action site name args f) :=
  fun s => ⟨[.op site name args (f s.world).1.isOk], by simp [Packs.action], by simpa using h _⟩

theorem Emits.log_status {P : Event → Prop} {site name : String} {args : List String}
    (f : World ρ → Option Error × World ρ) (h : ∀ ok, P (.op site name args ok)) :
    Emits P (status site name args f) :=
  fun s => ⟨[.op site name args (f s.world).1.isNone], by simp [Packs.status], by simpa using h _⟩

theorem Emits.log_bind {P : Event → Prop} {x : M ρ α} {f : α → M ρ β} (hx : Emits P x)
    (hf : ∀ a, Emits P (f a)) : Emits P (x >>= f) := by
  intro s
  obtain ⟨t, ht, hP⟩ := hx s
  rw [bind_def]
  rcases hxs : x s with ⟨r, s'⟩
  rw [hxs] at ht
  cases r with
  | ok a =>
    obtain ⟨t', ht', hP'⟩ := hf a s'
    refine ⟨t ++ t', ?_, ?_⟩
    · simp only at ht ⊢
      rw [ht', ht, List.append_assoc]
    · intro e he
      rcases List.mem_append.1 he with h | h
      · exact hP e h
      · exact hP' e h
  | err e => exact ⟨t, ht, hP⟩
  | panic m => exact ⟨t, ht, hP⟩

theorem Emits.log_orFail {P : Event → Prop} {x : M ρ α} (hx : Emits P x) (wrap : Error → Error) :
    Emits P (orFail x wrap) := by
  intro s
  obtain ⟨t, ht, hP⟩ := hx s
  refine ⟨t, ?_, hP⟩
  unfold Packs.orFail
  rcases hxs : x s with ⟨r, s'⟩
  rw [hxs] at ht
  cases r <;> simpa using ht

theorem Emits.log_ignoreErr {P : Event → Prop} {x : M ρ Unit} (hx : Emits P x) :
    Emits P (ignoreErr x) := by
  intro s
  obtain ⟨t, ht, hP⟩ := hx s
  refine ⟨t, ?_, hP⟩
  unfold Packs.ignoreErr
  rcases hxs : x s with ⟨r, s'⟩
  rw [hxs] at ht
  cases r <;> simpa using ht

theorem Emits.log_deferring {P : Event → Prop} {x : M ρ α} (hx : Emits P x)
    (cleanup : World ρ → World ρ) {site name : String} {args : List String}
    (h : P (.op site name args true)) : Emits P (deferring cleanup site name args x) := by
  intro s
  obtain ⟨t, ht, hP⟩ := hx s
  refine ⟨t ++ [.op site name args true], ?_, ?_⟩
  · simp [Packs.deferring, ht]
  · intro e he
    rcases List.mem_append.1 he with h' | h'
    · exact hP e h'
    · simp at h'; rw [h']; exact h

theorem copyAppDir_emits (os : OS ρ) (src dst : String) :
    Emits (fun e => e.src = "copyAppDir") (copyAppDir os src dst) := by
  unfold copyAppDir
  refine Emits.log_bind (Emits.log_emit rfl) fun _ => Emits.log_bind (Emits.log_query _ fun _ => rfl) fun r => ?_
  cases r with
  | error e => exact Emits.log_fail _
  | ok files =>
    refine Emits.log_bind (Emits.log_status _ fun _ => rfl) fun r => ?_
    cases r with
    | some e => exact Emits.log_fail _
    | none => exact Emits.log_pure _

end Logic

section EmitsFunctions
variable {ρ : Type}

theorem copyAppZip_emits (os : OS ρ) (src dst : String) :
    Emits (fun e => e.src ∈ ["copyAppZip", "copyAppDir"]) (copyAppZip os src dst) := by
  unfold copyAppZip
  repeat' first
    | exact Emits.log_pure _
    | exact Emits.log_fail _
    | exact Emits.log_emit (by simp [Event.src])
    | exact Emits.log_query _ (fun _ => by simp [Event.src])
    | exact Emits.log_action _ (fun _ => by simp [Event.src])
    | exact Emits.log_status _ (fun _ => by simp [Event.src])
    | exact (copyAppDir_emits os _ _).mono (fun e he => by simp [he])
    | refine Emits.log_deferring ?_ _ (by simp [Event.src])
    | refine Emits.log_bind ?_ (fun _ => ?_)
    | split

theorem cmpDirLoop_emits (os : OS ρ) : ∀ (dirs : List String) (last : String),
    Emits (fun e => e.src = "cmpDir") (cmpDirLoop os dirs last)
  | [], _ => by unfold cmpDirLoop; exact Emits.log_pure _
  | d :: dirs, last => by
    unfold cmpDirLoop
    repeat' first
      | exact Emits.log_pure _
      | exact Emits.log_query _ (fun _ => rfl)
      | exact cmpDirLoop_emits os dirs _
      | refine Emits.log_bind ?_ (fun _ => ?_)
      | split

theorem cmpDir_emits (os : OS ρ) (dirs : List String) :
    Emits (fun e => e.src = "cmpDir") (cmpDir os dirs) := by
  unfold cmpDir
  exact Emits.log_bind (Emits.log_emit rfl) fun _ => cmpDirLoop_emits os dirs ""

theorem commitSHA_emits (os : OS ρ) (dir : String) :
    Emits (fun e => e.src = "commitSHA") (commitSHA os dir) := by
  unfold commitSHA
  repeat' first
    | exact Emits.log_pure _
    | exact Emits.log_emit rfl
    | exact Emits.log_action _ (fun _ => rfl)
    | refine Emits.log_bind ?_ (fun _ => ?_)
    | split

theorem fileSHA_emits (os : OS ρ) (path : String) :
    Emits (fun e => e.src = "fileSHA") (fileSHA os path) := by
  unfold fileSHA
  repeat' first
    | exact Emits.log_pure _
    | exact Emits.log_emit rfl
    | exact Emits.log_query _ (fun _ => rfl)
    | refine Emits.log_bind ?_ (fun _ => ?_)
    | split

theorem setKeyJSON_emits (os : OS ρ) (path key : String) (value : JVal) :
    Emits (fun e => e.src = "setKeyJSON") (setKeyJSON os path key value) := by
  unfold setKeyJSON
  repeat' first
    | exact Emits.log_pure _
    | exact Emits.log_fail _
    | exact Emits.log_goPanic _
    | exact Emits.log_emit rfl
    | exact Emits.log_query _ (fun _ => rfl)
    | exact Emits.log_status _ (fun _ => rfl)
    | refine Emits.log_bind ?_ (fun _ => ?_)
    | split

theorem unzip_emits (os : OS ρ) (zip dst : String) :
    Emits (fun e => e.src = "unzip") (unzip os zip dst) := by
  unfold unzip
  repeat' first
    | exact Emits.log_pure _
    | exact Emits.log_fail _
    | exact Emits.log_emit rfl
    | exact Emits.log_action _ (fun _ => rfl)
    | exact Emits.log_status _ (fun _ => rfl)
    | refine Emits.log_bind ?_ (fun _ => ?_)
    | split

theorem untar_emits (os : OS ρ) (tar dst : String) :
    Emits (fun e => e.src = "untar") (untar os tar dst) := by
  unfold untar
  repeat' first
    | exact Emits.log_pure _
    | exact Emits.log_fail _
    | exact Emits.log_emit rfl
    | exact Emits.log_action _ (fun _ => rfl)
    | exact Emits.log_status _ (fun _ => rfl)
    | refine Emits.log_bind ?_ (fun _ => ?_)
    | split

theorem copyBuildpacksLoop_emits (os : OS ρ) (src dst : String) : ∀ files : List String,
    Emits (fun e => e.src = "unzip") (copyBuildpacksLoop os src dst files)
  | [] => by unfold copyBuildpacksLoop; exact Emits.log_pure _
  | f :: files => by
    unfold copyBuildpacksLoop
    split
    · exact copyBuildpacksLoop_emits os src dst files
    · exact Emits.log_bind (Emits.log_ignoreErr (unzip_emits os _ _))
        fun _ => copyBuildpacksLoop_emits os src dst files

theorem copyBuildpacks_emits (os : OS ρ) (src dst : String) :
    Emits (fun e => e.src ∈ ["copyBuildpacks", "unzip"]) (copyBuildpacks os src dst) := by
  unfold copyBuildpacks
  repeat' first
    | exact Emits.log_pure _
    | exact Emits.log_fail _
    | exact Emits.log_emit (by simp [Event.src])
    | exact Emits.log_query _ (fun _ => by simp [Event.src])
    | exact (copyBuildpacksLoop_emits os _ _ _).mono (fun e he => by simp [he])
    | refine Emits.log_bind ?_ (fun _ => ?_)
    | split

theorem reduceJSON_emits (os : OS ρ) (path key : String) :
    Emits (fun e => e.src = "reduceJSON") (reduceJSON os path key) := by
  unfold reduceJSON
  repeat' first
    | exact Emits.log_pure _
    | exact Emits.log_fail _
    | exact Emits.log_emit rfl
    | exact Emits.log_query _ (fun _ => rfl)
    | refine Emits.log_bind ?_ (fun _ => ?_)
    | split

theorem setenvLoop_emits (os : OS ρ) : ∀ env : List (String × String),
    Emits (fun e => e.src = "setupEnv") (setenvLoop os env)
  | [] => by unfold setenvLoop; exact Emits.log_pure _
  | (k, v) :: env => by
    unfold setenvLoop
    repeat' first
      | exact Emits.log_fail _
      | exact Emits.log_status _ (fun _ => rfl)
      | exact setenvLoop_emits os env
      | refine Emits.log_bind ?_ (fun _ => ?_)
      | split

theorem setupEnv_emits (os : OS ρ) : Emits (fun e => e.src = "setupEnv") (setupEnv os) := by
  unfold setupEnv
  repeat' first
    | exact Emits.log_fail _
    | exact Emits.log_emit rfl
    | exact Emits.log_query _ (fun _ => rfl)
    | exact setenvLoop_emits os _
    | refine Emits.log_bind ?_ (fun _ => ?_)
    | split

theorem setupStdFds_emits (os : OS ρ) :
    Emits (fun e => e.src = "setupStdFds") (setupStdFds os) := by
  unfold setupStdFds
  repeat' first
    | exact Emits.log_pure _
    | exact Emits.log_fail _
    | exact Emits.log_emit rfl
    | exact Emits.log_status _ (fun _ => rfl)
    | refine Emits.log_bind ?_ (fun _ => ?_)
    | split

theorem userLookup_emits (os : OS ρ) (u : String) :
    Emits (fun e => e.src = "userLookup") (userLookup os u) := by
  unfold userLookup
  repeat' first
    | exact Emits.log_pure _
    | exact Emits.log_fail _
    | exact Emits.log_emit rfl
    | exact Emits.log_query _ (fun _ => rfl)
    | refine Emits.log_bind ?_ (fun _ => ?_)
    | split

end EmitsFunctions

section Provision
variable {ρ : Type}

theorem vcapDirSteps_ok : ∀ dirs, ∀ e ∈ vcapDirSteps dirs, e.failed = false
  | [], e, h => by simp [vcapDirSteps] at h
  | d :: dirs, e, h => by
    simp only [vcapDirSteps, List.mem_cons] at h
    rcases h with rfl | rfl | h
    · rfl
    · rfl
    · exact vcapDirSteps_ok dirs e h

theorem vcapDirAllSteps_ok : ∀ dirs, ∀ e ∈ vcapDirAllSteps dirs, e.failed = false
  | [], e, h => by simp [vcapDirAllSteps] at h
  | d :: dirs, e, h => by
    simp only [vcapDirAllSteps, List.mem_cons] at h
    rcases h with rfl | rfl | h
    · rfl
    · rfl
    · exact vcapDirAllSteps_ok dirs e h

theorem vcapDirLoop_spec (os : OS ρ) : ∀ dirs : List String,
    StopsAtFailure (vcapDirLoop os dirs) (vcapDirSteps dirs)
  | [] => fun s => Or.inl ⟨⟨(), rfl⟩, by simp [vcapDirLoop, pure_def, vcapDirSteps]⟩
  | d :: dirs => fun s => by
    cases hm : (os.mkdirAll d s.world).1 with
    | some e =>
      refine Or.inr ⟨.failErr e ["make directory", d], [],
        .op "vcapDir" "os.MkdirAll" [d] false, ?_, ?_, ?_, rfl⟩ <;>
        simp [vcapDirLoop, bind_def, status, fail, hm]
    | none =>
      cases hr : (os.run "chown" ["vcap:vcap", d] (os.mkdirAll d s.world).2).1 with
      | error e =>
        refine Or.inr ⟨.failErr e ["chown", d, "to vcap:vcap"],
          [.op "vcapDir" "os.MkdirAll" [d] true],
          .op "vcapDir" "sys.Run" ["chown", "vcap:vcap", d] false, ?_, ?_, ?_, rfl⟩ <;>
          simp [vcapDirLoop, bind_def, status, action, fail, hm, hr, Except.isOk,
            Except.toBool, Event.failed]
      | ok v =>
        have hstep : vcapDirLoop os (d :: dirs) s = vcapDirLoop os dirs
            ⟨(os.run "chown" ["vcap:vcap", d] (os.mkdirAll d s.world).2).2,
              s.trace ++ [.op "vcapDir" "os.MkdirAll" [d] true]
                ++ [.op "vcapDir" "sys.Run" ["chown", "vcap:vcap", d] true]⟩ := by
          simp [vcapDirLoop, bind_def, status, action, hm, hr, Except.isOk, Except.toBool]
        rw [hstep]
        rcases vcapDirLoop_spec os dirs _ with ⟨hok, ht⟩ | ⟨err, t, f, herr, ht, htok, hf⟩
        · exact Or.inl ⟨hok, by rw [ht]; simp [vcapDirSteps]⟩
        · refine Or.inr ⟨err, .op "vcapDir" "os.MkdirAll" [d] true
            :: .op "vcapDir" "sys.Run" ["chown", "vcap:vcap", d] true :: t, f, herr, ?_, ?_, hf⟩
          · rw [ht]; simp
          · intro e he
            simp only [List.mem_cons] at he
            rcases he with rfl | rfl | he
            · rfl
            · rfl
            · exact htok e he

theorem vcapDirAllLoop_spec (os : OS ρ) : ∀ dirs : List String,
    StopsAtFailure (vcapDirAllLoop os dirs) (vcapDirAllSteps dirs)
  | [] => fun s => Or.inl ⟨⟨(), rfl⟩, by simp [vcapDirAllLoop, pure_def, vcapDirAllSteps]⟩
  | d :: dirs => fun s => by
    cases hm : (os.mkdirAll d s.world).1 with
    | some e =>
      refine Or.inr ⟨.failErr e ["make directory", d], [],
        .op "vcapDirAll" "os.MkdirAll" [d] false, ?_, ?_, ?_, rfl⟩ <;>
        simp [vcapDirAllLoop, bind_def, status, fail, hm]
    | none =>
      cases hr : (os.run "chown" ["-R", "vcap:vcap", d] (os.mkdirAll d s.world).2).1 with
      | error e =>
        refine Or.inr ⟨.failErr e ["recursively chown", d, "to", "vcap:vcap"],
          [.op "vcapDirAll" "os.MkdirAll" [d] true],
          .op "vcapDirAll" "sys.Run" ["chown", "-R", "vcap:vcap", d] false, ?_, ?_, ?_, rfl⟩ <;>
          simp [vcapDirAllLoop, bind_def, status, action, fail, hm, hr, Except.isOk,
            Except.toBool, Event.failed]
      | ok v =>
        have hstep : vcapDirAllLoop os (d :: dirs) s = vcapDirAllLoop os dirs
            ⟨(os.run "chown" ["-R", "vcap:vcap", d] (os.mkdirAll d s.world).2).2,
              s.trace ++ [.op "vcapDirAll" "os.MkdirAll" [d] true]
                ++ [.op "vcapDirAll" "sys.Run" ["chown", "-R", "vcap:vcap", d] true]⟩ := by
          simp [vcapDirAllLoop, bind_def, status, action, hm, hr, Except.isOk, Except.toBool]
        rw [hstep]
        rcases vcapDirAllLoop_spec os dirs _ with ⟨hok, ht⟩ | ⟨err, t, f, herr, ht, htok, hf⟩
        · exact Or.inl ⟨hok, by rw [ht]; simp [vcapDirAllSteps]⟩
        · refine Or.inr ⟨err, .op "vcapDirAll" "os.MkdirAll" [d] true
            :: .op "vcapDirAll" "sys.Run" ["chown", "-R", "vcap:vcap", d] true :: t, f, herr,
            ?_, ?_, hf⟩
          · rw [ht]; simp
          · intro e he
            simp only [List.mem_cons] at he
            rcases he with rfl | rfl | he
            · rfl
            · rfl
            · exact htok e he

end Provision

section ProvisionSteps
variable {ρ α β : Type}

theorem StopsAtFailure.stop_orFail {m : M ρ α} {L : List Event} (h : StopsAtFailure m L)
    (wrap : Error → Error) : StopsAtFailure (orFail m wrap) L := by
  intro s
  rcases h s with ⟨⟨a, ha⟩, ht⟩ | ⟨err, t, f, herr, ht, htok, hf⟩
  · left
    rcases hm : m s with ⟨r, s'⟩
    rw [hm] at ha ht
    simp only at ha ht
    subst ha
    simp [Packs.orFail, hm, ht]
  · right
    rcases hm : m s with ⟨r, s'⟩
    rw [hm] at herr ht
    simp only at herr ht
    subst herr
    exact ⟨wrap err, t, f, by simp [Packs.orFail, hm], by simp [Packs.orFail, hm, ht], htok, hf⟩

theorem StopsAtFailure.after_emit {m : M ρ α} {L : List Event} (h : StopsAtFailure m L)
    (e : Event) (he : e.failed = false) :
    StopsAtFailure (emit e >>= fun _ => m) (e :: L) := by
  intro s
  have hrun : (emit e >>= fun _ => m) s = m ⟨s.world, s.trace ++ [e]⟩ := by
    simp [bind_def, emit]
  rw [hrun]
  rcases h ⟨s.world, s.trace ++ [e]⟩ with ⟨ha, ht⟩ | ⟨err, t, f, herr, ht, htok, hf⟩
  · exact Or.inl ⟨ha, by rw [ht]; simp⟩
  · refine Or.inr ⟨err, e :: t, f, herr, by rw [ht]; simp, ?_, hf⟩
    intro x hx
    rcases List.mem_cons.1 hx with rfl | hx
    · exact he
    · exact htok x hx

theorem StopsAtFailure.seq {m₁ : M ρ α} {m₂ : M ρ β} {L₁ L₂ : List Event}
    (h₁ : StopsAtFailure m₁ L₁) (h₂ : StopsAtFailure m₂ L₂) (hL : ∀ e ∈ L₁, e.failed = false) :
    StopsAtFailure (m₁ >>= fun _ => m₂) (L₁ ++ L₂) := by
  intro s
  rcases h₁ s with ⟨⟨a, ha⟩, ht⟩ | ⟨err, t, f, herr, ht, htok, hf⟩
  · rcases hm : m₁ s with ⟨r, s'⟩
    rw [hm] at ha ht
    simp only at ha ht
    subst ha
    have hrun : (m₁ >>= fun _ => m₂) s = m₂ s' := by simp [bind_def, hm]
    rw [hrun]
    rcases h₂ s' with ⟨hb, ht'⟩ | ⟨err, t, f, herr, ht', htok, hf⟩
    · exact Or.inl ⟨hb, by rw [ht', ht]; simp⟩
    · refine Or.inr ⟨err, L₁ ++ t, f, herr, by rw [ht', ht]; simp, ?_, hf⟩
      intro x hx
      rcases List.mem_append.1 hx with hx | hx
      · exact hL x hx
      · exact htok x hx
  · right
    rcases hm : m₁ s with ⟨r, s'⟩
    rw [hm] at herr ht
    simp only at herr ht
    subst herr
    exact ⟨err, t, f, by simp [bind_def, hm], by simp [bind_def, hm, ht], htok, hf⟩

theorem prepareDirs_spec (os : OS ρ) (cfg : Config) :
    StopsAtFailure (prepareDirs os cfg) (provisionEvents os cfg) := by
  unfold prepareDirs provisionEvents
  have h1 : StopsAtFailure
      (vcapDir os [os.dir cfg.dropletPath, os.dir cfg.metadataPath, os.dir cfg.cachePath])
      (.call "vcapDir" [os.dir cfg.dropletPath, os.dir cfg.metadataPath, os.dir cfg.cachePath]
        :: vcapDirSteps [os.dir cfg.dropletPath, os.dir cfg.metadataPath, os.dir cfg.cachePath]) :=
    (vcapDirLoop_spec os _).after_emit _ rfl
  have h2 : StopsAtFailure (vcapDirAll os [cfg.buildDir, cfg.cacheDir, "/home/vcap/tmp"])
      (.call "vcapDirAll" [cfg.buildDir, cfg.cacheDir, "/home/vcap/tmp"]
        :: vcapDirAllSteps [cfg.buildDir, cfg.cacheDir, "/home/vcap/tmp"]) :=
    (vcapDirAllLoop_spec os _).after_emit _ rfl
  refine (h1.stop_orFail _).seq (h2.stop_orFail _) ?_
  intro e he
  rcases List.mem_cons.1 he with rfl | he
  · rfl
  · exact vcapDirSteps_ok _ e he

theorem provisionEvents_ok (os : OS ρ) (cfg : Config) :
    ∀ e ∈ provisionEvents os cfg, e.failed = false := by
  intro e he
  unfold provisionEvents at he
  rcases List.mem_append.1 he with he | he
  · rcases List.mem_cons.1 he with rfl | he
    · rfl
    · exact vcapDirSteps_ok _ e he
  · rcases List.mem_cons.1 he with rfl | he
    · rfl
    · exact vcapDirAllSteps_ok _ e he

theorem vcapDirLoop_emits (os : OS ρ) : ∀ dirs : List String,
    Emits (fun e => e.src = "vcapDir") (vcapDirLoop os dirs)
  | [] => by unfold vcapDirLoop; exact Emits.log_pure _
  | d :: dirs => by
    unfold vcapDirLoop
    repeat' first
      | exact Emits.log_fail _
      | exact Emits.log_status _ (fun _ => rfl)
      | exact Emits.log_action _ (fun _ => rfl)
      | exact vcapDirLoop_emits os dirs
      | refine Emits.log_bind ?_ (fun _ => ?_)
      | split

theorem vcapDirAllLoop_emits (os : OS ρ) : ∀ dirs : List String,
    Emits (fun e => e.src = "vcapDirAll") (vcapDirAllLoop os dirs)
  | [] => by unfold vcapDirAllLoop; exact Emits.log_pure _
  | d :: dirs => by
    unfold vcapDirAllLoop
    repeat' first
      | exact Emits.log_fail _
      | exact Emits.log_status _ (fun _ => rfl)
      | exact Emits.log_action _ (fun _ => rfl)
      | exact vcapDirAllLoop_emits os dirs
      | refine Emits.log_bind ?_ (fun _ => ?_)
      | split

theorem prepareDirs_emits (os : OS ρ) (cfg : Config) :
    Emits (fun e => e.isProvision = true) (prepareDirs os cfg) := by
  unfold prepareDirs vcapDir vcapDirAll
  repeat' first
    | exact Emits.log_emit rfl
    | exact (vcapDirLoop_emits os _).mono (fun e he => by simp [Event.isProvision, he])
    | exact (vcapDirAllLoop_emits os _).mono (fun e he => by simp [Event.isProvision, he])
    | refine Emits.log_orFail ?_ _
    | refine Emits.log_bind ?_ (fun _ => ?_)

end ProvisionSteps

section Phases
variable {ρ : Type}

theorem Event.quiet_not_provision {e : Event} (h : e.quiet = true) : e.isProvision = false := by
  cases e <;> simp_all [Event.quiet, Event.isProvision, Event.src]

theorem Event.quiet_not_builder {e : Event} (h : e.quiet = true) : e.isBuilder = false := by
  cases e with
  | call fn args => rfl
  | op site name args ok =>
    simp only [Event.quiet, Bool.and_eq_true, Bool.or_eq_true, bne_iff_ne, ne_eq,
      beq_iff_eq] at h
    simp only [Event.isBuilder, Bool.and_eq_false_iff, beq_eq_false_iff_ne, ne_eq]
    rcases h.2 with h' | h'
    · exact Or.inl (Or.inl h')
    · exact Or.inl (Or.inr (by rw [h']; decide))

theorem Event.quiet_not_setKey {e : Event} (h : e.quiet = true) : e.src ≠ "setKeyJSON" := by
  cases e <;> simp_all [Event.quiet, Event.src]

theorem Event.provision_not_builder {e : Event} (h : e.isProvision = true) :
    e.isBuilder = false := by
  cases e with
  | call fn args => rfl
  | op site name args ok =>
    simp only [Event.isProvision, Event.src, Bool.or_eq_true, beq_iff_eq] at h
    simp only [Event.isBuilder, Bool.and_eq_false_iff, beq_eq_false_iff_ne, ne_eq]
    rcases h with h | h <;> exact Or.inl (Or.inl (by rw [h]; decide))

theorem Event.provision_not_setKey {e : Event} (h : e.isProvision = true) :
    e.src ≠ "setKeyJSON" := by
  simp only [Event.isProvision, Bool.or_eq_true, beq_iff_eq] at h
  rcases h with h | h <;> rw [h] <;> decide

theorem quiet_of_src {e : Event}
    (h : e.src ∈ ["fileSHA", "copyAppZip", "copyAppDir", "commitSHA", "cmpDir", "untar",
      "copyBuildpacks", "unzip", "reduceJSON", "userLookup", "setupStdFds", "setupEnv"]) :
    e.quiet = true := by
  cases e with
  | call fn args =>
    simp only [Event.src, List.mem_cons, List.mem_singleton, List.not_mem_nil, or_false] at h
    rcases h with h | h | h | h | h | h | h | h | h | h | h | h <;> subst h <;> rfl
  | op site name args ok =>
    simp only [Event.src, List.mem_cons, List.mem_singleton, List.not_mem_nil, or_false] at h
    rcases h with h | h | h | h | h | h | h | h | h | h | h | h <;> subst h <;> rfl

theorem resolveApp_emits (os : OS ρ) (cfg : Config) :
    Emits (fun e => e.quiet = true) (resolveApp os cfg) := by
  unfold resolveApp
  repeat' first
    | exact Emits.log_pure _
    | exact Emits.log_fail _
    | exact (fileSHA_emits os _).mono (fun e he => quiet_of_src (by simp [he]))
    | exact (commitSHA_emits os _).mono (fun e he => quiet_of_src (by simp [he]))
    | exact (cmpDir_emits os _).mono (fun e he => quiet_of_src (by simp [he]))
    | exact (copyAppDir_emits os _ _).mono (fun e he => quiet_of_src (by simp [he]))
    | exact (copyAppZip_emits os _ _).mono (fun e he => quiet_of_src (by
        simp only [List.mem_cons, List.mem_singleton, List.not_mem_nil, or_false] at he
        rcases he with he | he <;> simp [he]))
    | refine Emits.log_orFail ?_ _
    | refine Emits.log_bind ?_ (fun _ => ?_)
    | split

theorem extractCache_emits (os : OS ρ) (cfg : Config) :
    Emits (fun e => e.quiet = true) (extractCache os cfg) := by
  unfold extractCache
  repeat' first
    | exact Emits.log_pure _
    | exact Emits.log_query _ (fun _ => rfl)
    | exact (untar_emits os _ _).mono (fun e he => quiet_of_src (by simp [he]))
    | refine Emits.log_orFail ?_ _
    | refine Emits.log_bind ?_ (fun _ => ?_)
    | split

theorem finishPrepare_emits (os : OS ρ) (cfg : Config) :
    Emits (fun e => e.quiet = true) (finishPrepare os cfg) := by
  unfold finishPrepare
  repeat' first
    | exact Emits.log_pure _
    | exact (reduceJSON_emits os _ _).mono (fun e he => quiet_of_src (by simp [he]))
    | exact (userLookup_emits os _).mono (fun e he => quiet_of_src (by simp [he]))
    | exact (setupStdFds_emits os).mono (fun e he => quiet_of_src (by simp [he]))
    | exact (setupEnv_emits os).mono (fun e he => quiet_of_src (by simp [he]))
    | exact (copyBuildpacks_emits os _ _).mono (fun e he => quiet_of_src (by
        simp only [List.mem_cons, List.mem_singleton, List.not_mem_nil, or_false] at he
        rcases he with he | he <;> simp [he]))
    | refine Emits.log_orFail ?_ _
    | refine Emits.log_bind ?_ (fun _ => ?_)
    | split

end Phases

section PrepareLog
variable {ρ : Type}

theorem stagePrepare_log (os : OS ρ) (cfg : Config) (s : St ρ) :
    ∃ t0, (∀ e ∈ t0, e.quiet = true) ∧
      (((∀ a, (stagePrepare os cfg s).1 ≠ .ok a) ∧
          (stagePrepare os cfg s).2.trace = s.trace ++ t0)
      ∨ (∃ err t f, (stagePrepare os cfg s).1 = .err err ∧
          (stagePrepare os cfg s).2.trace = s.trace ++ t0 ++ t ++ [f] ∧
          (∀ e ∈ t, e.isProvision = true ∧ e.failed = false) ∧
          f.isProvision = true ∧ f.failed = true)
      ∨ (∃ t1, (stagePrepare os cfg s).2.trace = s.trace ++ t0 ++ provisionEvents os cfg ++ t1 ∧
          ∀ e ∈ t1, e.quiet = true)) := by
  obtain ⟨ta, hta, hqa⟩ := resolveApp_emits os cfg s
  rcases h1 : resolveApp os cfg s with ⟨r1, s1⟩
  rw [h1] at hta
  simp only at hta
  cases r1 with
  | err e =>
    refine ⟨ta, hqa, Or.inl ⟨?_, ?_⟩⟩ <;> simp [stagePrepare, bind_def, h1, hta]
  | panic m =>
    refine ⟨ta, hqa, Or.inl ⟨?_, ?_⟩⟩ <;> simp [stagePrepare, bind_def, h1, hta]
  | ok v =>
    obtain ⟨tb, htb, hqb⟩ := extractCache_emits os cfg s1
    rcases h2 : extractCache os cfg s1 with ⟨r2, s2⟩
    rw [h2] at htb
    simp only at htb
    have hqab : ∀ e ∈ ta ++ tb, e.quiet = true := by
      intro e he
      rcases List.mem_append.1 he with he | he
      · exact hqa e he
      · exact hqb e he
    cases r2 with
    | err e =>
      refine ⟨ta ++ tb, hqab, Or.inl ⟨?_, ?_⟩⟩ <;>
        simp [stagePrepare, bind_def, h1, h2, hta, htb]
    | panic m =>
      refine ⟨ta ++ tb, hqab, Or.inl ⟨?_, ?_⟩⟩ <;>
        simp [stagePrepare, bind_def, h1, h2, hta, htb]
    | ok u =>
      obtain ⟨tp, htp, hqp⟩ := prepareDirs_emits os cfg s2
      have hp := prepareDirs_spec os cfg s2
      rcases h3 : prepareDirs os cfg s2 with ⟨r3, s3⟩
      rw [h3] at htp hp
      simp only at htp hp
      rcases hp with ⟨⟨a, ha⟩, ht⟩ | ⟨err, t, f, herr, ht, htok, hf⟩
      · subst ha
        obtain ⟨tc, htc, hqc⟩ := finishPrepare_emits os cfg s3
        rcases h4 : finishPrepare os cfg s3 with ⟨r4, s4⟩
        rw [h4] at htc
        simp only at htc
        refine ⟨ta ++ tb, hqab, Or.inr (Or.inr ⟨tc, ?_, hqc⟩)⟩
        have : (stagePrepare os cfg s).2.trace = s4.trace := by
          cases r4 <;> simp [stagePrepare, bind_def, pure_def, h1, h2, h3, h4]
        rw [this, htc, ht, htb, hta]
        simp
      · subst herr
        have htp' : tp = t ++ [f] := by
          have := htp.symm.trans ht
          rw [List.append_assoc] at this
          exact List.append_cancel_left this
        refine ⟨ta ++ tb, hqab, Or.inr (Or.inl ⟨err, t, f, ?_, ?_, ?_, ?_, hf⟩)⟩
        · simp [stagePrepare, bind_def, h1, h2, h3]
        · simp [stagePrepare, bind_def, h1, h2, h3, ht, htb, hta]
        · intro e he
          exact ⟨hqp e (by rw [htp']; simp [he]), htok e he⟩
        · exact hqp f (by rw [htp']; simp)

end PrepareLog

section StageLog
variable {ρ : Type}

theorem stage_after_prepare (os : OS ρ) (cfg : Config) (s : St ρ) :
    ∃ t2, (stage os cfg s).2.trace = (stagePrepare os cfg s).2.trace ++ t2 ∧
      (∀ e ∈ t2, e.isProvision = false) ∧
      ((∀ a, (stagePrepare os cfg s).1 ≠ .ok a) →
        t2 = [] ∧ ∀ err, (stagePrepare os cfg s).1 = .err err → (stage os cfg s).1 = .err err) := by
  rcases hp : stagePrepare os cfg s with ⟨r, s1⟩
  cases r with
  | err e => exact ⟨[], by simp [stage, bind_def, hp], by simp, fun _ =>
      ⟨rfl, fun err herr => by simpa [stage, bind_def, hp] using herr⟩⟩
  | panic m => exact ⟨[], by simp [stage, bind_def, hp], by simp, fun _ =>
      ⟨rfl, fun err herr => by simp at herr⟩⟩
  | ok r =>
    have hemit : Emits (fun e => e.isProvision = false)
        (do
          match ← status "stage" "cmd.Run" ("/lifecycle/builder" :: (cfg.args ++ r.1))
              (os.exec (builderCmd cfg r.1 r.2.2.1 r.2.2.2)) with
          | some e => (fail (.failErrCode e .failedBuild ["build"]) : M ρ Unit)
          | none =>
            orFail (setKeyJSON os cfg.metadataPath "pack_metadata"
              (packMetadata cfg.appName r.2.1)) (.failErr · ["write metadata"])) := by
      repeat' first
        | exact Emits.log_fail _
        | exact Emits.log_status _ (fun _ => rfl)
        | exact (setKeyJSON_emits os _ _ _).mono (fun e he => by simp [Event.isProvision, he])
        | refine Emits.log_orFail ?_ _
        | refine Emits.log_bind ?_ (fun _ => ?_)
        | split
    obtain ⟨t2, ht2, hq⟩ := hemit s1
    refine ⟨t2, ?_, hq, fun h => absurd rfl (h r)⟩
    rw [← ht2]
    simp [stage, bind_def, hp]

theorem stagePrepare_emits (os : OS ρ) (cfg : Config) :
    Emits (fun e => e.quiet = true ∨ e.isProvision = true) (stagePrepare os cfg) := by
  unfold stagePrepare
  repeat' first
    | exact Emits.log_pure _
    | exact (resolveApp_emits os cfg).mono (fun e he => Or.inl he)
    | exact (extractCache_emits os cfg).mono (fun e he => Or.inl he)
    | exact (finishPrepare_emits os cfg).mono (fun e he => Or.inl he)
    | exact (prepareDirs_emits os cfg).mono (fun e he => Or.inr he)
    | refine Emits.log_bind ?_ (fun _ => ?_)

/-- C2. When all the steps of `stage` that come before the build succeed and
the run of `/lifecycle/builder` ends with an error, `stage` returns the error
built by `sys.FailErrCode` with the failed-build code around the error of the
process; the run of the builder is the last entry of the log, no entry of the
log belongs to `setKeyJSON`, and the world, the metadata file with it, is left
as the builder left it. -/
theorem stage_failed_build (os : OS ρ) (cfg : Config) (w : World ρ)
    (r : List String × String × Nat × Nat) (s1 : St ρ) (e : Error)
    (hprep : stagePrepare os cfg ⟨w, []⟩ = (.ok r, s1))
    (hrun : (os.exec (builderCmd cfg r.1 r.2.2.1 r.2.2.2) s1.world).1 = some e) :
    (stage os cfg ⟨w, []⟩).1 = .err (.failErrCode e .failedBuild ["build"]) ∧
    (stage os cfg ⟨w, []⟩).2.world = (os.exec (builderCmd cfg r.1 r.2.2.1 r.2.2.2) s1.world).2 ∧
    (stage os cfg ⟨w, []⟩).2.trace
      = s1.trace ++ [.op "stage" "cmd.Run" ("/lifecycle/builder" :: (cfg.args ++ r.1)) false] ∧
    (∀ ev ∈ (stage os cfg ⟨w, []⟩).2.trace, ev.src ≠ "setKeyJSON") ∧
    (stage os cfg ⟨w, []⟩).2.world.files cfg.metadataPath
      = (os.exec (builderCmd cfg r.1 r.2.2.1 r.2.2.2) s1.world).2.files cfg.metadataPath := by
  have hstage : stage os cfg ⟨w, []⟩
      = (.err (.failErrCode e .failedBuild ["build"]),
          ⟨(os.exec (builderCmd cfg r.1 r.2.2.1 r.2.2.2) s1.world).2,
            s1.trace ++ [.op "stage" "cmd.Run" ("/lifecycle/builder" :: (cfg.args ++ r.1))
              false]⟩) := by
    simp [stage, bind_def, hprep, status, hrun, fail]
  rw [hstage]
  refine ⟨rfl, rfl, rfl, ?_, rfl⟩
  intro ev hev
  obtain ⟨t, ht, hq⟩ := stagePrepare_emits os cfg ⟨w, []⟩
  rw [hprep] at ht
  simp only [List.nil_append] at ht
  rcases List.mem_append.1 hev with h | h
  · rw [ht] at h
    rcases hq ev h with h' | h'
    · exact Event.quiet_not_setKey h'
    · exact Event.provision_not_setKey h'
  · simp only [List.mem_singleton] at h
    rw [h]
    simp [Event.src]

end StageLog

section StageInputs
variable {ρ α β : Type}

theorem eq_pair_of_fst {A B : Type} {p : A × B} {a : A} (h : p.1 = a) : p = (a, p.2) := by
  cases p; simp_all

set_option maxHeartbeats 1000000 in
theorem stagePrepare_test (be : Option Error) :
    (stagePrepare (testOS [] be) (testConfig "" "/home/vcap/app") ⟨emptyWorld, []⟩).1
        = .ok ([], "", 2000, 2000) ∧
    (stagePrepare (testOS [] be) (testConfig "" "/home/vcap/app") ⟨emptyWorld, []⟩).2.world
        = emptyWorld := by
  simp [stagePrepare, resolveApp, extractCache, prepareDirs, finishPrepare, commitSHA, cmpDir,
    cmpDirLoop, copyAppDir, vcapDir, vcapDirLoop, vcapDirAll, vcapDirAllLoop, copyBuildpacks,
    copyBuildpacksLoop, userLookup, setupStdFds, setupEnv, setenvLoop, parseUint32,
    bind_def, pure_def, emit, query, action, status, orFail, fail, testOS, testConfig,
    Except.isOk, Except.toBool]

theorem testOS_exec_world (reg : List String) (be : Option Error) (c : Cmd) (w : World Unit) :
    ((testOS reg be).exec c w).2 = w := by
  simp only [testOS]; split <;> rfl

/-- Witness of C2: on the example machine with a builder that ends with
`exit status 1`, `stage` returns the failed-build error around it and the
metadata file still holds `{}`. -/
theorem stage_failed_build_witness :
    (stage (testOS [] (some (.ext "exit status 1"))) (testConfig "" "/home/vcap/app")
        ⟨emptyWorld, []⟩).1
      = .err (.failErrCode (.ext "exit status 1") .failedBuild ["build"]) ∧
    (stage (testOS [] (some (.ext "exit status 1"))) (testConfig "" "/home/vcap/app")
        ⟨emptyWorld, []⟩).2.world.files "/out/result.json"
      = some (.json (.obj [])) := by
  have h := stage_failed_build (testOS [] (some (.ext "exit status 1")))
    (testConfig "" "/home/vcap/app") emptyWorld ([], "", 2000, 2000)
    (stagePrepare (testOS [] (some (.ext "exit status 1"))) (testConfig "" "/home/vcap/app")
      ⟨emptyWorld, []⟩).2 (.ext "exit status 1")
    (eq_pair_of_fst (stagePrepare_test _).1) (by simp [testOS, builderCmd])
  refine ⟨h.1, ?_⟩
  rw [h.2.1, testOS_exec_world, (stagePrepare_test _).2]
  rfl

/-- C7. When both the archive path and the directory path are empty, `stage`
returns the error built by `sys.FailCode` with the invalid-arguments code, and
it leaves the world and the log as they were: it has performed no operation
on the file system and started no process. -/
theorem stage_no_source (os : OS ρ) (cfg : Config) (s : St ρ)
    (hz : cfg.appZip = "") (hd : cfg.appDir = "") :
    stage os cfg s = (.err (.failCode .invalidArgs ["parse app directory"]), s) := by
  simp [stage, stagePrepare, resolveApp, hz, hd, bind_def, fail]

/-- Witness of C7: the example configuration without a source, on a world with
an empty log. -/
theorem stage_no_source_witness :
    stage (testOS [] none) (testConfig "" "") ⟨emptyWorld, []⟩
      = (.err (.failCode .invalidArgs ["parse app directory"]), ⟨emptyWorld, []⟩) :=
  stage_no_source (testOS [] none) (testConfig "" "") ⟨emptyWorld, []⟩ rfl rfl

end StageInputs

section ErrsLogic
variable {ρ α β : Type}

theorem Errs.err_pure {P : Error → Prop} (a : α) : Errs P (pure a : M ρ α) :=
  fun s e h => by simp [pure_def] at h

theorem Errs.err_fail {P : Error → Prop} {e : Error} (h : P e) : Errs P (fail e : M ρ α) :=
  fun s e' h' => by
    simp only [Packs.fail, Res.err.injEq] at h'
    rw [← h']; exact h

theorem Errs.err_bind {P : Error → Prop} {x : M ρ α} {f : α → M ρ β} (hx : Errs P x)
    (hf : ∀ a, Errs P (f a)) : Errs P (x >>= f) := by
  intro s e h
  rw [bind_def] at h
  rcases hxs : x s with ⟨r, s'⟩
  rw [hxs] at h
  cases r with
  | ok a => exact hf a s' e h
  | err e' =>
    simp only [Res.err.injEq] at h
    exact hx s e (by rw [hxs, ← h])
  | panic m => simp at h

theorem Errs.err_orFail {P : Error → Prop} (x : M ρ α) {wrap : Error → Error}
    (h : ∀ e, P (wrap e)) : Errs P (orFail x wrap) := by
  intro s e he
  unfold Packs.orFail at he
  rcases hxs : x s with ⟨r, s'⟩
  rw [hxs] at he
  cases r with
  | ok a => simp at he
  | err e' =>
    simp only [Res.err.injEq] at he
    rw [← he]; exact h e'
  | panic m => simp at he

theorem Errs.err_status {P : Error → Prop} (site name : String) (args : List String)
    (f : World ρ → Option Error × World ρ) : Errs P (status site name args f) :=
  fun s e h => by simp [Packs.status] at h

theorem Errs.err_query {P : Error → Prop} (site name : String) (args : List String)
    (f : World ρ → Except Error α) : Errs P (query site name args f) :=
  fun s e h => by simp [Packs.query] at h

theorem Errs.err_emit {P : Error → Prop} (ev : Event) : Errs P (emit ev : M ρ Unit) :=
  fun s e h => by simp [Packs.emit] at h

theorem fileSHA_errs {P : Error → Prop} (os : OS ρ) (path : String) :
    Errs P (fileSHA os path) := by
  unfold fileSHA
  repeat' first
    | exact Errs.err_pure _
    | exact Errs.err_emit _
    | exact Errs.err_query _ _ _ _
    | refine Errs.err_bind ?_ (fun _ => ?_)
    | split

/-- C8, as amended. The archive path takes precedence over the directory
path: for every configuration in which appZip is non-empty, whether appDir is
empty or not, `stage` runs exactly as it does with the same archive path and
an empty directory path, so that the directory path is not resolved, and the
error it returns, if any, is not one built by `sys.FailCode`: it does not fail
with the invalid-arguments failure of a missing source. -/
theorem stage_archive_takes_precedence (os : OS ρ) (cfg : Config) (s : St ρ)
    (hz : cfg.appZip ≠ "") :
    stage os cfg s = stage os { cfg with appDir := "" } s ∧
    ∀ code action, (stage os cfg s).1 ≠ .err (.failCode code action) := by
  constructor
  · simp [stage, stagePrepare, resolveApp, extractCache, prepareDirs, finishPrepare, builderCmd,
      hz]
  · have h : Errs (fun e => ∀ code action, e ≠ .failCode code action) (stage os cfg) := by
      unfold stage stagePrepare resolveApp extractCache prepareDirs finishPrepare
      rw [if_pos hz]
      repeat' first
        | exact Errs.err_pure _
        | exact Errs.err_fail (by simp)
        | exact Errs.err_orFail _ (by simp)
        | exact Errs.err_status _ _ _ _
        | exact Errs.err_query _ _ _ _
        | exact fileSHA_errs os _
        | refine Errs.err_bind ?_ (fun _ => ?_)
        | split
    intro code action heq
    exact h s _ heq code action rfl

end ErrsLogic

section SameDir
variable {ρ : Type}

theorem commitSHA_run (os : OS ρ) (dir : String) (s : St ρ) :
    ∃ v, commitSHA os dir s
      = (.ok v, ⟨(os.run "git" ["-C", dir, "rev-parse", "HEAD"] s.world).2,
          s.trace ++ [.call "commitSHA" [dir],
            .op "commitSHA" "sys.Run" ["git", "-C", dir, "rev-parse", "HEAD"]
              (os.run "git" ["-C", dir, "rev-parse", "HEAD"] s.world).1.isOk]⟩) := by
  cases h : (os.run "git" ["-C", dir, "rev-parse", "HEAD"] s.world).1 with
  | error e => exact ⟨"", by simp [commitSHA, bind_def, pure_def, emit, action, h]⟩
  | ok v => exact ⟨v, by simp [commitSHA, bind_def, pure_def, emit, action, h]⟩

theorem cmpDir_pair (os : OS ρ) (a b : String) (s : St ρ)
    (habs : ∀ d w p, os.abs d w = .ok p → p ≠ "") :
    ∃ (r : Bool) (t : List Event), cmpDir os [a, b] s = (.ok r, ⟨s.world, s.trace ++ t⟩) ∧
      (∀ e ∈ t, e.isCall "copyAppDir" = false) ∧
      (r = true ↔ ∃ p, os.abs a s.world = .ok p ∧ os.abs b s.world = .ok p) := by
  cases ha : os.abs a s.world with
  | error e =>
    refine ⟨false, [.call "cmpDir" [a, b], .op "cmpDir" "filepath.Abs" [a] false], ?_, ?_, ?_⟩
    · simp [cmpDir, cmpDirLoop, bind_def, pure_def, emit, query, ha, Except.isOk, Except.toBool]
    · intro e he
      simp only [List.mem_cons, List.mem_singleton, List.not_mem_nil, or_false] at he
      rcases he with rfl | rfl <;> rfl
    · simp
  | ok p =>
    have hp : p ≠ "" := habs a s.world p ha
    cases hb : os.abs b s.world with
    | error e =>
      refine ⟨false, [.call "cmpDir" [a, b], .op "cmpDir" "filepath.Abs" [a] true,
        .op "cmpDir" "filepath.Abs" [b] false], ?_, ?_, ?_⟩
      · simp [cmpDir, cmpDirLoop, bind_def, pure_def, emit, query, ha, hb, Except.isOk,
          Except.toBool]
      · intro e he
        simp only [List.mem_cons, List.mem_singleton, List.not_mem_nil, or_false] at he
        rcases he with rfl | rfl | rfl <;> rfl
      · simp
    | ok q =>
      refine ⟨decide (p = q), [.call "cmpDir" [a, b], .op "cmpDir" "filepath.Abs" [a] true,
        .op "cmpDir" "filepath.Abs" [b] true], ?_, ?_, ?_⟩
      · by_cases hpq : p = q <;>
          simp [cmpDir, cmpDirLoop, bind_def, pure_def, emit, query, ha, hb, Except.isOk,
            Except.toBool, hpq, hp]
      · intro e he
        simp only [List.mem_cons, List.mem_singleton, List.not_mem_nil, or_false] at he
        rcases he with rfl | rfl | rfl <;> rfl
      · simp only [decide_eq_true_eq]
        constructor
        · intro h
          exact ⟨p, rfl, by rw [h]⟩
        · rintro ⟨x, hx1, hx2⟩
          simp only [Except.ok.injEq] at hx1 hx2
          rw [hx1, hx2]

theorem copyAppDir_called (os : OS ρ) (src dst : String) (wrap : Error → Error) (s : St ρ) :
    ∃ t, (orFail (copyAppDir os src dst) wrap s).2.trace
        = s.trace ++ .call "copyAppDir" [src, dst] :: t ∧
      ∀ e ∈ t, e.isCall "copyAppDir" = false := by
  cases hf : os.appFilesInDir src s.world with
  | error e =>
    refine ⟨[.op "copyAppDir" "AppFilesInDir" [src] false], ?_, ?_⟩ <;>
      simp [orFail, copyAppDir, bind_def, emit, query, fail, hf, Except.isOk, Except.toBool,
        Event.isCall]
  | ok files =>
    cases hc : (os.copyFiles files src dst s.world).1 with
    | some e =>
      refine ⟨[.op "copyAppDir" "AppFilesInDir" [src] true,
        .op "copyAppDir" "CopyFiles" [src, dst] false], ?_, ?_⟩ <;>
        simp [orFail, copyAppDir, bind_def, emit, query, status, fail, hf, hc, Except.isOk,
          Except.toBool, Event.isCall]
    | none =>
      refine ⟨[.op "copyAppDir" "AppFilesInDir" [src] true,
        .op "copyAppDir" "CopyFiles" [src, dst] true], ?_, ?_⟩ <;>
        simp [orFail, copyAppDir, bind_def, pure_def, emit, query, status, fail, hf, hc,
          Except.isOk, Except.toBool, Event.isCall]

end SameDir

section SameDirClaim
variable {ρ : Type}

theorem trace_bind_pure {α β : Type} (x : Res α × St ρ) (v : β) :
    (match x with
      | (.ok _, s') => (pure v : M ρ β) s'
      | (.err e, s') => (.err e, s')
      | (.panic m, s') => (.panic m, s')).2.trace = x.2.trace := by
  rcases x with ⟨r, s⟩
  cases r <;> rfl

/-- C9. With no archive path and a directory path `D` set, let the world be
the one that the `git` run of `commitSHA` leaves, and let `filepath.Abs` give
non-empty paths. Then `cmpDir(D, B)` is true exactly when `filepath.Abs`
succeeds on both and yields the same path; when it is, the content-resolution
step of `stage` returns without an error and calls `copyAppDir` zero times;
when it is not, the step calls `copyAppDir(D, B)` exactly once. -/
theorem resolveApp_copies_unless_same_dir (os : OS ρ) (cfg : Config) (w : World ρ)
    (hz : cfg.appZip = "") (hd : cfg.appDir ≠ "")
    (habs : ∀ d w' p, os.abs d w' = .ok p → p ≠ "") :
    ((cmpDir os [cfg.appDir, cfg.buildDir]
        ⟨(os.run "git" ["-C", cfg.appDir, "rev-parse", "HEAD"] w).2, []⟩).1 = .ok true ↔
      ∃ p, os.abs cfg.appDir (os.run "git" ["-C", cfg.appDir, "rev-parse", "HEAD"] w).2 = .ok p ∧
        os.abs cfg.buildDir (os.run "git" ["-C", cfg.appDir, "rev-parse", "HEAD"] w).2 = .ok p) ∧
    ((∃ p, os.abs cfg.appDir (os.run "git" ["-C", cfg.appDir, "rev-parse", "HEAD"] w).2 = .ok p ∧
        os.abs cfg.buildDir (os.run "git" ["-C", cfg.appDir, "rev-parse", "HEAD"] w).2 = .ok p) →
      (∃ v, (resolveApp os cfg ⟨w, []⟩).1 = .ok v) ∧
      (resolveApp os cfg ⟨w, []⟩).2.trace.filter (Event.isCall "copyAppDir") = []) ∧
    (¬ (∃ p, os.abs cfg.appDir (os.run "git" ["-C", cfg.appDir, "rev-parse", "HEAD"] w).2 = .ok p ∧
        os.abs cfg.buildDir (os.run "git" ["-C", cfg.appDir, "rev-parse", "HEAD"] w).2 = .ok p) →
      (resolveApp os cfg ⟨w, []⟩).2.trace.filter (Event.isCall "copyAppDir")
        = [.call "copyAppDir" [cfg.appDir, cfg.buildDir]]) := by
  obtain ⟨r', t', hc', -, hiff'⟩ := cmpDir_pair os cfg.appDir cfg.buildDir
    ⟨(os.run "git" ["-C", cfg.appDir, "rev-parse", "HEAD"] w).2, []⟩ habs
  obtain ⟨v, hv⟩ := commitSHA_run os cfg.appDir ⟨w, []⟩
  obtain ⟨r, t, hc, hcall, hiff⟩ := cmpDir_pair os cfg.appDir cfg.buildDir
    ⟨(os.run "git" ["-C", cfg.appDir, "rev-parse", "HEAD"] w).2,
      [.call "commitSHA" [cfg.appDir],
        .op "commitSHA" "sys.Run" ["git", "-C", cfg.appDir, "rev-parse", "HEAD"]
          (os.run "git" ["-C", cfg.appDir, "rev-parse", "HEAD"] w).1.isOk]⟩ habs
  have hfilter : t.filter (Event.isCall "copyAppDir") = [] := by
    simpa [List.filter_eq_nil_iff] using hcall
  simp only [List.nil_append] at hiff hiff' hv hc hc'
  refine ⟨?_, ?_, ?_⟩
  · rw [hc', ← hiff']
    simp
  · intro hsame
    have hr : r = true := hiff.2 hsame
    subst hr
    have hres : resolveApp os cfg ⟨w, []⟩ = (.ok v,
        ⟨(os.run "git" ["-C", cfg.appDir, "rev-parse", "HEAD"] w).2,
          [.call "commitSHA" [cfg.appDir],
            .op "commitSHA" "sys.Run" ["git", "-C", cfg.appDir, "rev-parse", "HEAD"]
              (os.run "git" ["-C", cfg.appDir, "rev-parse", "HEAD"] w).1.isOk] ++ t⟩) := by
      simp [resolveApp, hz, hd, bind_def, pure_def, hv, hc]
    rw [hres]
    exact ⟨⟨v, rfl⟩, by simp [List.filter_cons, Event.isCall, hfilter]⟩
  · intro hdiff
    have hr : r = false := by
      cases r
      · rfl
      · exact absurd (hiff.1 rfl) hdiff
    subst hr
    obtain ⟨t3, ht3, hcall3⟩ := copyAppDir_called os cfg.appDir cfg.buildDir
      (.failErr · ["copy app directory"])
      ⟨(os.run "git" ["-C", cfg.appDir, "rev-parse", "HEAD"] w).2,
        [.call "commitSHA" [cfg.appDir],
          .op "commitSHA" "sys.Run" ["git", "-C", cfg.appDir, "rev-parse", "HEAD"]
            (os.run "git" ["-C", cfg.appDir, "rev-parse", "HEAD"] w).1.isOk] ++ t⟩
    have hfilter3 : t3.filter (Event.isCall "copyAppDir") = [] := by
      simpa [List.filter_eq_nil_iff] using hcall3
    have htrace : (resolveApp os cfg ⟨w, []⟩).2.trace
        = (orFail (copyAppDir os cfg.appDir cfg.buildDir) (.failErr · ["copy app directory"])
            ⟨(os.run "git" ["-C", cfg.appDir, "rev-parse", "HEAD"] w).2,
              [.call "commitSHA" [cfg.appDir],
                .op "commitSHA" "sys.Run" ["git", "-C", cfg.appDir, "rev-parse", "HEAD"]
                  (os.run "git" ["-C", cfg.appDir, "rev-parse", "HEAD"] w).1.isOk] ++ t⟩).2.trace := by
      simp only [resolveApp, hz, hd, bind_def, hv, hc, ne_eq, not_true_eq_false, if_false,
        not_false_eq_true, if_true, Bool.not_false]
      exact trace_bind_pure _ _
    rw [htrace, ht3]
    simp [List.filter_cons, Event.isCall, hfilter, hfilter3]

end SameDirClaim

section Witnesses

theorem testOS_abs_nonempty (reg : List String) (be : Option Error) :
    ∀ d (w' : World Unit) p, (testOS reg be).abs d w' = .ok p → p ≠ "" := by
  intro d w' p h
  simp only [testOS, Except.ok.injEq] at h
  subst h
  intro hp
  have hdata := congrArg String.data hp
  split at hdata
  · rename_i hhead
    rw [hdata] at hhead
    simp at hhead
  · simp [String.data_append] at hdata

/-- Witness of C9: on the example machine the application directory
`/tmp/app` is the build directory and nothing is copied, and the application
directory `/home/vcap/app` is copied into the build directory once. -/
theorem resolveApp_copies_unless_same_dir_witness :
    ((∃ v, (resolveApp (testOS [] none) (testConfig "" "/tmp/app") ⟨emptyWorld, []⟩).1 = .ok v) ∧
      (resolveApp (testOS [] none) (testConfig "" "/tmp/app") ⟨emptyWorld, []⟩).2.trace.filter
        (Event.isCall "copyAppDir") = []) ∧
    (resolveApp (testOS [] none) (testConfig "" "/home/vcap/app")
        ⟨emptyWorld, []⟩).2.trace.filter (Event.isCall "copyAppDir")
      = [.call "copyAppDir" ["/home/vcap/app", "/tmp/app"]] :=
  ⟨(resolveApp_copies_unless_same_dir (testOS [] none) (testConfig "" "/tmp/app") emptyWorld rfl
      (by decide) (testOS_abs_nonempty _ _)).2.1 ⟨"/tmp/app", rfl, rfl⟩,
   (resolveApp_copies_unless_same_dir (testOS [] none) (testConfig "" "/home/vcap/app") emptyWorld
      rfl (by decide) (testOS_abs_nonempty _ _)).2.2 (by
        rintro ⟨p, h1, h2⟩
        simp only [testOS, testConfig, Except.ok.injEq] at h1 h2
        rw [← h1] at h2
        revert h2
        decide)⟩

/-- Witness of C8: the example configuration with both an archive path and a
directory path. -/
theorem stage_archive_takes_precedence_witness :
    stage (testOS [] none) (testConfig "/tmp/app.zip" "/home/vcap/app") ⟨emptyWorld, []⟩
      = stage (testOS [] none) { testConfig "/tmp/app.zip" "/home/vcap/app" with appDir := "" }
          ⟨emptyWorld, []⟩ :=
  (stage_archive_takes_precedence (testOS [] none) (testConfig "/tmp/app.zip" "/home/vcap/app")
    ⟨emptyWorld, []⟩ (by decide)).1

set_option maxHeartbeats 1000000 in
/-- Counterexample to C8 as stated: on the example machine, with the archive
path `/tmp/app.zip` and the directory path `/home/vcap/app` both set, `stage`
does not fail: it extracts the archive, runs the builder and returns without
an error. -/
theorem stage_both_sources_succeeds :
    (testConfig "/tmp/app.zip" "/home/vcap/app").appZip ≠ "" ∧
    (testConfig "/tmp/app.zip" "/home/vcap/app").appDir ≠ "" ∧
    (stage (testOS [] none) (testConfig "/tmp/app.zip" "/home/vcap/app") ⟨emptyWorld, []⟩).1
      = .ok () ∧
    Event.call "copyAppZip" ["/tmp/app.zip", "/tmp/app"]
      ∈ (stage (testOS [] none) (testConfig "/tmp/app.zip" "/home/vcap/app")
          ⟨emptyWorld, []⟩).2.trace := by
  refine ⟨by decide, by decide, ?_, ?_⟩ <;>
  simp [stage, stagePrepare, resolveApp, extractCache, prepareDirs, finishPrepare, fileSHA,
    copyAppZip, deferring, copyAppDir, vcapDir, vcapDirLoop, vcapDirAll, vcapDirAllLoop,
    copyBuildpacks, copyBuildpacksLoop, userLookup, setupStdFds, setupEnv, setenvLoop,
    parseUint32, setKeyJSON, openFile, readJSON, decodeMap, reencodeObj, truncateFile, writeJSON,
    builderCmd, Except.bind, World.setFile, emptyWorld, testWorld, mapGet, M.bind,
    bind_def, pure_def, emit, query, action, status, orFail, fail, testOS, testConfig,
    Except.isOk, Except.toBool]

end Witnesses

section ProvisionClaim
variable {ρ : Type}

theorem vcapDirSteps_provision : ∀ dirs, ∀ e ∈ vcapDirSteps dirs, e.isProvision = true
  | [], e, h => by simp [vcapDirSteps] at h
  | d :: dirs, e, h => by
    simp only [vcapDirSteps, List.mem_cons] at h
    rcases h with rfl | rfl | h
    · rfl
    · rfl
    · exact vcapDirSteps_provision dirs e h

theorem vcapDirAllSteps_provision : ∀ dirs, ∀ e ∈ vcapDirAllSteps dirs, e.isProvision = true
  | [], e, h => by simp [vcapDirAllSteps] at h
  | d :: dirs, e, h => by
    simp only [vcapDirAllSteps, List.mem_cons] at h
    rcases h with rfl | rfl | h
    · rfl
    · rfl
    · exact vcapDirAllSteps_provision dirs e h

theorem provisionEvents_provision (os : OS ρ) (cfg : Config) :
    ∀ e ∈ provisionEvents os cfg, e.isProvision = true := by
  intro e he
  unfold provisionEvents at he
  rcases List.mem_append.1 he with he | he
  · rcases List.mem_cons.1 he with rfl | he
    · rfl
    · exact vcapDirSteps_provision _ e he
  · rcases List.mem_cons.1 he with rfl | he
    · rfl
    · exact vcapDirAllSteps_provision _ e he

/-- C6. In every run of `stage`: if `/lifecycle/builder` is run at all, the log
holds before that run the whole block of successful steps that make the parent
directories of the droplet, the metadata and the cache archive and give them
to `vcap:vcap`, and make the build directory, the cache directory and
`/home/vcap/tmp` and give them to `vcap:vcap` recursively; and if a step of
`vcapDir` or `vcapDirAll` fails, that step is the last entry of the log, so
that nothing is performed after it, and `stage` returns an error. -/
theorem stage_builder_only_after_provisioning (os : OS ρ) (cfg : Config) (w : World ρ) :
    ((∃ e ∈ (stage os cfg ⟨w, []⟩).2.trace, e.isBuilder = true) →
      ∃ pre post, (stage os cfg ⟨w, []⟩).2.trace = pre ++ provisionEvents os cfg ++ post ∧
        ∀ e ∈ pre ++ provisionEvents os cfg, e.isBuilder = false) ∧
    (∀ e ∈ (stage os cfg ⟨w, []⟩).2.trace, e.isProvision = true → e.failed = true →
      (stage os cfg ⟨w, []⟩).2.trace.getLast? = some e ∧
      ∃ err, (stage os cfg ⟨w, []⟩).1 = .err err) := by
  obtain ⟨t0, hq0, hcases⟩ := stagePrepare_log os cfg ⟨w, []⟩
  obtain ⟨t2, ht2, hq2, hfail⟩ := stage_after_prepare os cfg ⟨w, []⟩
  simp only [List.nil_append] at hcases
  rcases hcases with ⟨hnok, htr⟩ | ⟨err, t, f, herr, htr, htok, hfp, hff⟩ | ⟨t1, htr, hq1⟩
  · obtain ⟨ht2nil, -⟩ := hfail hnok
    rw [htr, ht2nil, List.append_nil] at ht2
    rw [ht2]
    constructor
    · rintro ⟨e, he, hb⟩
      rw [Event.quiet_not_builder (hq0 e he)] at hb
      exact absurd hb (by decide)
    · intro e he hp
      rw [Event.quiet_not_provision (hq0 e he)] at hp
      exact absurd hp (by decide)
  · have hnok : ∀ a, (stagePrepare os cfg ⟨w, []⟩).1 ≠ .ok a := by
      intro a h; rw [herr] at h; exact absurd h (by simp)
    obtain ⟨ht2nil, hres⟩ := hfail hnok
    rw [htr, ht2nil, List.append_nil] at ht2
    rw [ht2]
    constructor
    · rintro ⟨e, he, hb⟩
      have : e.isBuilder = false := by
        rcases List.mem_append.1 he with he | he
        · rcases List.mem_append.1 he with he | he
          · exact Event.quiet_not_builder (hq0 e he)
          · exact Event.provision_not_builder (htok e he).1
        · rw [List.mem_singleton.1 he]
          exact Event.provision_not_builder hfp
      rw [this] at hb
      exact absurd hb (by decide)
    · intro e he hp hf
      have hef : e = f := by
        rcases List.mem_append.1 he with he | he
        · rcases List.mem_append.1 he with he | he
          · rw [Event.quiet_not_provision (hq0 e he)] at hp
            exact absurd hp (by decide)
          · rw [(htok e he).2] at hf
            exact absurd hf (by decide)
        · exact List.mem_singleton.1 he
      exact ⟨by rw [hef]; simp, err, hres err herr⟩
  · rw [htr] at ht2
    rw [ht2]
    constructor
    · intro _
      refine ⟨t0, t1 ++ t2, by simp, ?_⟩
      intro e he
      rcases List.mem_append.1 he with he | he
      · exact Event.quiet_not_builder (hq0 e he)
      · exact Event.provision_not_builder (provisionEvents_provision os cfg e he)
    · intro e he hp hf
      exfalso
      rcases List.mem_append.1 he with he | he
      · rcases List.mem_append.1 he with he | he
        · rcases List.mem_append.1 he with he | he
          · rw [Event.quiet_not_provision (hq0 e he)] at hp
            exact absurd hp (by decide)
          · rw [provisionEvents_ok os cfg e he] at hf
            exact absurd hf (by decide)
        · rw [Event.quiet_not_provision (hq1 e he)] at hp
          exact absurd hp (by decide)
      · rw [hq2 e he] at hp
        exact absurd hp (by decide)

end ProvisionClaim

section ProvisionWitness

set_option maxHeartbeats 1000000 in
theorem stage_test_runs_builder :
    Event.op "stage" "cmd.Run" ["/lifecycle/builder", "-skipDetect"] true
      ∈ (stage (testOS [] none) (testConfig "" "/home/vcap/app") ⟨emptyWorld, []⟩).2.trace := by
  simp [stage, stagePrepare, resolveApp, extractCache, prepareDirs, finishPrepare, commitSHA,
    cmpDir, cmpDirLoop, copyAppDir, vcapDir, vcapDirLoop, vcapDirAll, vcapDirAllLoop,
    copyBuildpacks, copyBuildpacksLoop, userLookup, setupStdFds, setupEnv, setenvLoop,
    parseUint32, setKeyJSON, openFile, readJSON, decodeMap, reencodeObj, truncateFile, writeJSON,
    builderCmd, Except.bind, World.setFile, emptyWorld, testWorld, mapGet, M.bind,
    bind_def, pure_def, emit, query, action, status, orFail, fail, testOS, testConfig,
    Except.isOk, Except.toBool]

set_option maxHeartbeats 1000000 in
theorem stage_test_mkdir_fails :
    Event.op "vcapDirAll" "os.MkdirAll" ["/tmp/cache"] false
      ∈ (stage (testOSNoMkdir "/tmp/cache") (testConfig "" "/home/vcap/app")
          ⟨emptyWorld, []⟩).2.trace := by
  simp [stage, stagePrepare, resolveApp, extractCache, prepareDirs, finishPrepare, commitSHA,
    cmpDir, cmpDirLoop, copyAppDir, vcapDir, vcapDirLoop, vcapDirAll, vcapDirAllLoop,
    testDir, bind_def, pure_def, emit, query, action, status, orFail, fail, testOS,
    testOSNoMkdir, testConfig, Except.isOk, Except.toBool]

/-- Witness of C6: on the example machine the builder is run and the log holds
the block of successful directory steps before that run; on the machine where
`os.MkdirAll` fails on the cache directory, that failed step is the last entry
of the log and `stage` returns an error. -/
theorem stage_builder_only_after_provisioning_witness :
    (∃ pre post,
      (stage (testOS [] none) (testConfig "" "/home/vcap/app") ⟨emptyWorld, []⟩).2.trace
        = pre ++ provisionEvents (testOS [] none) (testConfig "" "/home/vcap/app") ++ post ∧
      ∀ e ∈ pre ++ provisionEvents (testOS [] none) (testConfig "" "/home/vcap/app"),
        e.isBuilder = false) ∧
    ((stage (testOSNoMkdir "/tmp/cache") (testConfig "" "/home/vcap/app")
        ⟨emptyWorld, []⟩).2.trace.getLast?
      = some (.op "vcapDirAll" "os.MkdirAll" ["/tmp/cache"] false) ∧
     ∃ err, (stage (testOSNoMkdir "/tmp/cache") (testConfig "" "/home/vcap/app")
        ⟨emptyWorld, []⟩).1 = .err err) :=
  ⟨(stage_builder_only_after_provisioning (testOS [] none) (testConfig "" "/home/vcap/app")
      emptyWorld).1 ⟨_, stage_test_runs_builder, rfl⟩,
   (stage_builder_only_after_provisioning (testOSNoMkdir "/tmp/cache")
      (testConfig "" "/home/vcap/app") emptyWorld).2 _ stage_test_mkdir_fails rfl rfl⟩

end ProvisionWitness

end Packs
